import Mathlib

/-!
Verification of the archive extraction engine of `src/installer/archive.c`
(rfx installer, swftools).

Shallow embedding conventions:
* Bytes are `Nat` (values < 256 in real streams; the parser code never
  depends on the bound, so it is not baked into the types).
* Paths are byte lists (`List Nat`); the relevant character codes are
  `.` = 46, `/` = 47, `\` = 92.
* The decompression filter is modelled as the identity: all claims are about
  the decompressed byte stream, which `unpack_archive` consumes through the
  generic stream contract, so `unpack_archive` here takes the decompressed
  bytes directly.
* The Status Sink is modelled as an event trace (`List Event`).  The textual
  payload of `message`/`error` callbacks is never load-bearing for any claim,
  so those constructors carry no text.
* The destination filesystem is modelled as `FS`: a list of directory paths,
  an association list of file paths to contents, and the list of open file
  handles (`fopen` without a matching `fclose`).
* Uninitialised C memory (the `filename_len` byte and `malloc` contents when
  a read returns fewer bytes than requested) is modelled as zero / absent;
  the code performs no short-read check there (claim C9), and no claim
  depends on the actual junk value.
* The source stores the 4-byte little-endian entry count and entry size in a
  SIGNED 32-bit `int` (`num = b1|b2<<8|b3<<16|b4<<24`): size bytes with the
  high bit set yield a negative value.  These fields are therefore modelled
  as `Int` via `sle4` (two's-complement value of the low 32 bits; the
  `% 2 ^ 32` is vacuous for real bytes, which are < 256).  In `write_file`
  the copy loop `while(pos < len)` runs zero iterations for `len ≤ 0`, i.e.
  it copies `len.toNat` bytes: a negative declared size writes an empty file
  and succeeds.
-/

set_option autoImplicit false

namespace SwfArchive

/-- Little-endian decode of (up to) 4 bytes, as in
`num = b1|b2<<8|b3<<16|b4<<24` with missing bytes read as 0. -/
def le4 (l : List Nat) : Nat :=
  l.getD 0 0 + 256 * l.getD 1 0 + 65536 * l.getD 2 0 + 16777216 * l.getD 3 0

/-- The same four bytes as the source's signed 32-bit
`int num = b1|b2<<8|b3<<16|b4<<24` (two's complement): a value with the high
bit set is negative.  The `% 2 ^ 32` only matters for model "bytes" above
255 and is vacuous on real streams. -/
def sle4 (l : List Nat) : Int :=
  if le4 l % 2 ^ 32 < 2 ^ 31 then ((le4 l % 2 ^ 32 : Nat) : Int)
  else ((le4 l % 2 ^ 32 : Nat) : Int) - 2 ^ 32

/-- The loop `while(p[0]=='.' && (p[1]=='/' || p[1]=='\\')) p += 2;`
stripping leading `./` and `.\` segments. -/
def stripDotSlash : List Nat → List Nat
  | 46 :: 47 :: rest => stripDotSlash rest
  | 46 :: 92 :: rest => stripDotSlash rest
  | p => p

/-- The loop in `write_file` replacing every `/` by `\`.  Note: in the source
this loop is not guarded by any platform `#ifdef`; it runs unconditionally. -/
def slashconv (p : List Nat) : List Nat :=
  p.map (fun b => if b = 47 then 92 else b)

/-- Helper for `get_directory`: index of the last `/` or `\` in the path. -/
def lastSepAux : List Nat → Nat → Option Nat → Option Nat
  | [], _, acc => acc
  | b :: rest, i, acc =>
      lastSepAux rest (i + 1) (if b = 47 ∨ b = 92 then some i else acc)

/-- `get_directory`: everything before the last `/` or `\`, or `""` when the
path has no separator (mirrors the `strrchr` pair in the source). -/
def get_directory (p : List Nat) : List Nat :=
  match lastSepAux p 0 none with
  | none => []
  | some i => p.take i

/-- Modelled from the spec: `concatPaths` comes from `utils.h`/`os.c`, which
is not part of the given sources.  Per spec §3 the entry name is "joined to a
caller-supplied destination root"; we model the join as inserting a single
`/` between a nonempty root and the name. -/
def concatPaths (root name : List Nat) : List Nat :=
  if root = [] then name else root ++ [47] ++ name

/-- One Status Sink callback.  `error`/`message` carry no text (see header
comment); `status` carries the two progress integers; `new_file` and
`new_directory` carry the path handed to the sink. -/
inductive Event where
  | error : Event
  | message : Event
  | status (cur : Nat) (total : Int) : Event
  | new_file (path : List Nat) : Event
  | new_directory (path : List Nat) : Event
deriving DecidableEq, Repr

/-- Destination filesystem model: existing directories, files (association
list from path to byte content), and currently open write handles. -/
structure FS where
  dirs : List (List Nat)
  files : List (List Nat × List Nat)
  openh : List (List Nat)
deriving DecidableEq, Repr

/-- Keys (paths) of the file table. -/
def keysOf (fl : List (List Nat × List Nat)) : List (List Nat) :=
  fl.map Prod.fst

/-- First-match lookup in the file table (a path names one file on a real
filesystem; we keep the association-list view). -/
def lookupF : List (List Nat × List Nat) → List Nat → Option (List Nat)
  | [], _ => none
  | (q, w) :: rest, p => if q = p then some w else lookupF rest p

/-- Replace the first binding of `p` (or append a new one): the effect of
writing file `p` with content `v`. -/
def setFile : List (List Nat × List Nat) → List Nat → List Nat → List (List Nat × List Nat)
  | [], p, v => [(p, v)]
  | (q, w) :: rest, p, v =>
      if q = p then (p, v) :: rest else (q, w) :: setFile rest p v

/-- Remove the first occurrence (the effect of `fclose` on the open-handle
list). -/
def removeFirst : List (List Nat) → List Nat → List (List Nat)
  | [], _ => []
  | x :: rest, p => if x = p then rest else x :: removeFirst rest p

/-- `mkdir` precondition in the filesystem model: the target must not already
exist (as directory or file — `EEXIST`) and its parent directory must exist
(`ENOENT`); `""` cannot be created and an empty parent means the working
directory, which exists. -/
def mkdirOk (fs : FS) (q : List Nat) : Prop :=
  q ≠ [] ∧ q ∉ fs.dirs ∧ q ∉ keysOf fs.files ∧
    (get_directory q = [] ∨ get_directory q ∈ fs.dirs)

instance (fs : FS) (q : List Nat) : Decidable (mkdirOk fs q) := by
  unfold mkdirOk; infer_instance

/-- `create_directory` from the source: early success for a null/empty path
or one starting with `.` followed by end-of-string or another `.`; then
leading `./`/`.\` stripping; silent success when the path already exists as
a directory; otherwise `mkdir`, reporting failure through the sink. -/
def create_directory (fs : FS) (p : List Nat) : Option FS × List Event :=
  if p = [] ∨ (p.head? = some 46 ∧ (p.tail.head? = none ∨ p.tail.head? = some 46)) then
    (some fs, [])
  else
    let q := stripDotSlash p
    if q ∈ fs.dirs then (some fs, [])
    else if mkdirOk fs q then (some { fs with dirs := fs.dirs ++ [q] }, [])
    else (none, [Event.error])

/-- `fopen(path, "wb")` precondition: the path is not an existing directory
and its parent directory exists. -/
def fopenOk (fs : FS) (p : List Nat) : Prop :=
  p ∉ fs.dirs ∧ (get_directory p = [] ∨ get_directory p ∈ fs.dirs)

instance (fs : FS) (p : List Nat) : Decidable (fopenOk fs p) := by
  unfold fopenOk; infer_instance

/-- The copy loop of `write_file`, fuel-indexed for structural recursion.
Arguments: fuel, remaining input stream, bytes still to copy, bytes written
so far.  Returns (success, content written, rest of the stream).  One
iteration copies `l = min 4096 remaining`; a short read (`n < l`) reports
failure after consuming the `n` available bytes and writing nothing. -/
def writeLoopF : Nat → List Nat → Nat → List Nat → Bool × List Nat × List Nat
  | _, rem, 0, acc => (true, acc, rem)
  | 0, rem, _ + 1, acc => (false, acc, rem)
  | fuel + 1, rem, k + 1, acc =>
      let l := min 4096 (k + 1)
      let n := min l rem.length
      if n < l then (false, acc, rem.drop n)
      else writeLoopF fuel (rem.drop l) (k + 1 - l) (acc ++ rem.take l)

/-- The copy loop of `write_file` (fuel `k` always suffices: every iteration
copies at least one byte). -/
def writeLoop (rem : List Nat) (k : Nat) (acc : List Nat) : Bool × List Nat × List Nat :=
  writeLoopF k rem k acc

/-- `write_file(filename, r, len, f)` with the source's SIGNED `int len`:
strips leading `./`/`.\`, converts every `/` to `\` (unconditionally — see
`slashconv`), announces `new_file`, opens the destination truncating it,
then runs `while(pos < len)` copying 4096-byte chunks — zero iterations when
`len ≤ 0`, i.e. it copies `len.toNat` bytes.  On a short read it reports an
error and returns failure without closing the handle; on `fopen` failure it
reports an error with the stream untouched. -/
def write_file (fname : List Nat) (rem : List Nat) (len : Int) (fs : FS) :
    Bool × FS × List Event × List Nat :=
  let p := slashconv (stripDotSlash fname)
  if fopenOk fs p then
    let fs1 : FS := { fs with files := setFile fs.files p [], openh := p :: fs.openh }
    let w := writeLoop rem len.toNat []
    let fs2 : FS := { fs1 with files := setFile fs1.files p w.2.1 }
    if w.1 then
      (true, { fs2 with openh := removeFirst fs2.openh p }, [Event.new_file p], w.2.2)
    else
      (false, fs2, [Event.new_file p, Event.error], w.2.2)
  else
    (false, fs, [Event.new_file p, Event.error], rem)

/-- One iteration of the entry loop of `unpack_archive`, parameterised by the
recursive continuation.  Mirrors the source: read 3 tag bytes (short read is
"Unexpected end of archive"); `END` breaks; read the 4-byte size into a
signed 32-bit `int` (`sle4`; a short read returns 0 silently); read the
1-byte name length and the name with no
short-read check; strip `./`, join with the destination root; report
progress and a message; dispatch `DIR` to `create_directory` (after
`new_directory`) and anything else to parent `create_directory` plus
`write_file`. -/
def parseStep (dest : List Nat) (num : Int)
    (recur : List Nat → FS → Nat → Bool × FS × List Event)
    (rem : List Nat) (fs : FS) (pos : Nat) : Bool × FS × List Event :=
  if rem.length < 3 then (false, fs, [Event.error])
  else if rem.take 3 = [69, 78, 68] then (true, fs, [])
  else
    let r1 := rem.drop 3
    if r1.length < 4 then (false, fs, [])
    else
      let len := sle4 (r1.take 4)
      let r2 := r1.drop 4
      let nlen := (r2.head?).getD 0
      let r3 := r2.drop 1
      let fname := r3.take nlen
      let r4 := r3.drop nlen
      let path := concatPaths dest (stripDotSlash fname)
      let evs := [Event.status (pos + 1) num, Event.message]
      if rem.take 3 = [68, 73, 82] then
        let c := create_directory fs path
        match c.1 with
        | some fs1 =>
            let t := recur r4 fs1 (pos + 1)
            (t.1, t.2.1, evs ++ [Event.new_directory path] ++ c.2 ++ t.2.2)
        | none => (false, fs, evs ++ [Event.new_directory path] ++ c.2)
      else
        let c := create_directory fs (get_directory path)
        match c.1 with
        | some fs1 =>
            let w := write_file path r4 len fs1
            if w.1 then
              let t := recur w.2.2.2 w.2.1 (pos + 1)
              (t.1, t.2.1, evs ++ c.2 ++ w.2.2.1 ++ t.2.2)
            else (false, w.2.1, evs ++ c.2 ++ w.2.2.1)
        | none => (false, fs, evs ++ c.2)

/-- Fuel-indexed entry loop (structural recursion; every iteration consumes
at least 3 stream bytes, so `length + 1` fuel always suffices). -/
def parseLoopF (dest : List Nat) (num : Int) :
    Nat → List Nat → FS → Nat → Bool × FS × List Event
  | 0, _, fs, _ => (false, fs, [])
  | fuel + 1, rem, fs, pos => parseStep dest num (parseLoopF dest num fuel) rem fs pos

/-- The entry loop of `unpack_archive` over the remaining decompressed
bytes. -/
def parseLoop (dest : List Nat) (num : Int) (rem : List Nat) (fs : FS) (pos : Nat) :
    Bool × FS × List Event :=
  parseLoopF dest num (rem.length + 1) rem fs pos

/-- `unpack_archive(data, len, destdir, f)` on the decompressed byte stream:
"Creating installation directory" message, `create_directory(destdir)`,
4-byte entry count (short read returns 0 silently, before any progress),
initial `status(0, num)`, "Uncompressing files..." message, the entry loop,
and a final "Finishing Installation" message on success. -/
def unpack_archive (data : List Nat) (dest : List Nat) (fs : FS) :
    Bool × FS × List Event :=
  let c := create_directory fs dest
  match c.1 with
  | none => (false, fs, [Event.message] ++ c.2)
  | some fs1 =>
    if data.length < 4 then (false, fs1, [Event.message] ++ c.2)
    else
      let num := sle4 (data.take 4)
      let t := parseLoop dest num (data.drop 4) fs1 0
      (t.1, t.2.1,
        [Event.message] ++ c.2 ++ [Event.status 0 num, Event.message] ++ t.2.2 ++
          (if t.1 then [Event.message] else []))

/-- A parsed (non-sentinel) archive entry, in the generalized form the parser
actually accepts: a `DIR` entry or a file entry with an arbitrary 3-byte tag;
both carry the raw 4-byte size field, the name-length byte and the name. -/
inductive GEntry where
  | gdir (sizeBytes : List Nat) (nlen : Nat) (name : List Nat) : GEntry
  | gfile (tag sizeBytes : List Nat) (nlen : Nat) (name : List Nat) (payload : List Nat) : GEntry
deriving DecidableEq, Repr

/-- Wire form of one entry.  Note that a `DIR` entry also carries the 4-byte
size field: the source reads it before dispatching on the tag. -/
def gencodeEntry : GEntry → List Nat
  | .gdir sb nlen name => [68, 73, 82] ++ sb ++ [nlen] ++ name
  | .gfile t sb nlen name payload => t ++ sb ++ [nlen] ++ name ++ payload

/-- Wire form of an entry sequence. -/
def gencodeList (ges : List GEntry) : List Nat :=
  (ges.map gencodeEntry).flatten

/-- Well-formedness of an entry: the declared lengths match the carried data
and a file tag is 3 bytes distinct from the `END` and `DIR` sentinels.  A
file entry's payload has `(sle4 sb).toNat` bytes — the number of bytes the
program's signed copy loop consumes, which is 0 when the 4 size bytes encode
a negative `int` (such entries are well-formed and write an empty file). -/
def WFG : GEntry → Prop
  | .gdir sb nlen name => sb.length = 4 ∧ name.length = nlen
  | .gfile t sb nlen name payload =>
      t.length = 3 ∧ t ≠ [69, 78, 68] ∧ t ≠ [68, 73, 82] ∧ sb.length = 4 ∧
        name.length = nlen ∧ payload.length = (sle4 sb).toNat

instance : DecidablePred WFG := fun e => by
  cases e <;> (unfold WFG; infer_instance)

/-- Destination path of an entry: stripped name joined to the root (§3). -/
def entryPath (dest name : List Nat) : List Nat :=
  concatPaths dest (stripDotSlash name)

/-- The path under which `write_file` actually opens a file entry: the joined
path, stripped again and with every `/` replaced by `\`. -/
def fileKey (dest name : List Nat) : List Nat :=
  slashconv (stripDotSlash (entryPath dest name))

/-- The effect of one entry of the loop body of `unpack_archive`: progress
and message events, then dispatch to the materializer.  `parseStep` on the
wire form of a well-formed entry is exactly this (see `parseStep_gencode`). -/
def stepE (dest : List Nat) (num : Int) (e : GEntry) (fs : FS) (pos : Nat) :
    Bool × FS × List Event :=
  match e with
  | .gdir _ _ name =>
      let path := entryPath dest name
      let c := create_directory fs path
      match c.1 with
      | some fs1 =>
          (true, fs1, [Event.status (pos + 1) num, Event.message, Event.new_directory path] ++ c.2)
      | none =>
          (false, fs, [Event.status (pos + 1) num, Event.message, Event.new_directory path] ++ c.2)
  | .gfile _ _ _ name payload =>
      let path := entryPath dest name
      let c := create_directory fs (get_directory path)
      match c.1 with
      | some fs1 =>
          let w := write_file path payload (payload.length : Int) fs1
          (w.1, w.2.1, [Event.status (pos + 1) num, Event.message] ++ c.2 ++ w.2.2.1)
      | none => (false, fs, [Event.status (pos + 1) num, Event.message] ++ c.2)

/-- Entry-by-entry interpretation of the loop: run `stepE` on each entry,
aborting on the first failure. -/
def runEntries (dest : List Nat) (num : Int) : List GEntry → FS → Nat → Bool × FS × List Event
  | [], fs, _ => (true, fs, [])
  | e :: rest, fs, pos =>
      let s := stepE dest num e fs pos
      if s.1 then
        let t := runEntries dest num rest s.2.1 (pos + 1)
        (t.1, t.2.1, s.2.2 ++ t.2.2)
      else (false, s.2.1, s.2.2)

/-- File paths (as stored in the file table) written by an entry sequence. -/
def writePaths (dest : List Nat) : List GEntry → List (List Nat)
  | [] => []
  | .gdir _ _ _ :: rest => writePaths dest rest
  | .gfile _ _ _ name _ :: rest => fileKey dest name :: writePaths dest rest

/-- Number of entries of the sequence whose wire form starts strictly before
byte offset `b` (counted from the start of the first entry). -/
def startedEntries : List GEntry → Nat → Nat
  | _, 0 => 0
  | [], _ + 1 => 0
  | e :: rest, b + 1 => 1 + startedEntries rest (b + 1 - (gencodeEntry e).length)

/-- Recognizer for `error` events. -/
def isErr : Event → Bool
  | .error => true
  | _ => false

/-- Recognizer for `status` (progress) events. -/
def isStatus : Event → Bool
  | .status _ _ => true
  | _ => false

/-- Recognizer for materializer dispatch events (`new_file`/`new_directory`). -/
def isDisp : Event → Bool
  | .new_file _ => true
  | .new_directory _ => true
  | _ => false

/-- Number of `error` callbacks in a trace. -/
def countErr (ev : List Event) : Nat := (ev.filter isErr).length

/-- Number of dispatch callbacks in a trace. -/
def countDisp (ev : List Event) : Nat := (ev.filter isDisp).length

/-- The trace up to (excluding) the first `error` callback. -/
def beforeError (ev : List Event) : List Event :=
  ev.takeWhile (fun e => !isErr e)

/-- The state of the in-memory byte source (`reader_t` with `memread_t`). -/
structure Memread where
  data : List Nat
  pos : Nat
deriving DecidableEq, Repr

/-- `reader_memread`: produce `min maxLen remaining` bytes from the cursor
and advance it by that amount. -/
def reader_memread (r : Memread) (maxLen : Nat) : List Nat × Memread :=
  let len := if r.data.length - r.pos < maxLen then r.data.length - r.pos else maxLen
  ((r.data.drop r.pos).take len, { r with pos := r.pos + len })

/-! ### The copy loop of `write_file` -/

theorem writeLoopF_zero (f : Nat) (rem acc : List Nat) :
    writeLoopF f rem 0 acc = (true, acc, rem) := by
  cases f <;> rfl

theorem writeLoopF_succ (f k : Nat) (rem acc : List Nat) :
    writeLoopF (f + 1) rem (k + 1) acc =
      (let l := min 4096 (k + 1)
       let n := min l rem.length
       if n < l then (false, acc, rem.drop n)
       else writeLoopF f (rem.drop l) (k + 1 - l) (acc ++ rem.take l)) := rfl

theorem writeLoopF_congr (k : Nat) : ∀ (rem acc : List Nat) (f1 f2 : Nat), k ≤ f1 → k ≤ f2 →
    writeLoopF f1 rem k acc = writeLoopF f2 rem k acc := by
  induction k using Nat.strong_induction_on with
  | _ k ih =>
    intro rem acc f1 f2 h1 h2
    match k, h1, h2 with
    | 0, _, _ => rw [writeLoopF_zero, writeLoopF_zero]
    | k + 1, h1, h2 =>
      match f1, f2, h1, h2 with
      | f1 + 1, f2 + 1, h1, h2 =>
        rw [writeLoopF_succ, writeLoopF_succ]
        simp only []
        split
        · rfl
        · exact ih (k + 1 - min 4096 (k + 1)) (by omega) _ _ f1 f2 (by omega) (by omega)

theorem writeLoop_zero (rem acc : List Nat) : writeLoop rem 0 acc = (true, acc, rem) := rfl

theorem writeLoop_succ (k : Nat) (rem acc : List Nat) :
    writeLoop rem (k + 1) acc =
      (if rem.length < min 4096 (k + 1) then (false, acc, [])
       else writeLoop (rem.drop (min 4096 (k + 1))) (k + 1 - min 4096 (k + 1))
              (acc ++ rem.take (min 4096 (k + 1)))) := by
  unfold writeLoop
  rw [writeLoopF_succ]
  simp only []
  by_cases h : rem.length < min 4096 (k + 1)
  · rw [if_pos (by omega : min (min 4096 (k + 1)) rem.length < min 4096 (k + 1))]
    rw [if_pos h]
    have : min (min 4096 (k + 1)) rem.length = rem.length := by omega
    rw [this, List.drop_length]
  · rw [if_neg (by omega : ¬ min (min 4096 (k + 1)) rem.length < min 4096 (k + 1))]
    rw [if_neg h]
    exact writeLoopF_congr _ _ _ _ _ (by omega) (by omega)

/-- When the stream holds at least `k` bytes, the copy loop copies exactly
the first `k` of them and leaves the rest. -/
theorem writeLoop_exact (k : Nat) : ∀ (rem acc : List Nat), k ≤ rem.length →
    writeLoop rem k acc = (true, acc ++ rem.take k, rem.drop k) := by
  induction k using Nat.strong_induction_on with
  | _ k ih =>
    intro rem acc hk
    match k with
    | 0 => simp [writeLoop_zero]
    | k + 1 =>
      rw [writeLoop_succ]
      rw [if_neg (by omega)]
      rw [ih (k + 1 - min 4096 (k + 1)) (by omega) _ _ (by simp; omega)]
      rw [List.append_assoc, ← List.take_add, List.drop_drop]
      have h1 : min 4096 (k + 1) + (k + 1 - min 4096 (k + 1)) = k + 1 := by omega
      rw [h1]

/-- When the stream is shorter than `k`, the copy loop fails; the content
written so far consists of the complete 4096-byte chunks, and the whole
stream has been consumed. -/
theorem writeLoop_short (k : Nat) : ∀ (rem acc : List Nat), rem.length < k →
    writeLoop rem k acc = (false, acc ++ rem.take (4096 * (rem.length / 4096)), []) := by
  induction k using Nat.strong_induction_on with
  | _ k ih =>
    intro rem acc hk
    match k with
    | k + 1 =>
      rw [writeLoop_succ]
      by_cases h : rem.length < min 4096 (k + 1)
      · rw [if_pos h]
        have : rem.length / 4096 = 0 := by
          apply Nat.div_eq_of_lt; omega
        simp [this]
      · rw [if_neg h]
        have h4096 : min 4096 (k + 1) = 4096 := by omega
        rw [h4096] at *
        rw [ih (k + 1 - 4096) (by omega) _ _ (by simp; omega)]
        rw [List.append_assoc, ← List.take_add]
        have hlen : (rem.drop 4096).length = rem.length - 4096 := by simp
        rw [hlen]
        have hdiv : rem.length / 4096 = (rem.length - 4096) / 4096 + 1 :=
          Nat.div_eq_sub_div (by omega) (by omega)
        have : 4096 + 4096 * ((rem.length - 4096) / 4096) = 4096 * (rem.length / 4096) := by
          rw [hdiv]; ring
        rw [this]

theorem writeLoop_rem_length (k : Nat) (rem acc : List Nat) :
    ((writeLoop rem k acc).2.2).length ≤ rem.length := by
  rcases Nat.lt_or_ge rem.length k with h | h
  · rw [writeLoop_short k rem acc h]; simp
  · rw [writeLoop_exact k rem acc h]; simp

theorem writeLoop_success (k : Nat) (rem acc : List Nat)
    (h : (writeLoop rem k acc).1 = true) : k ≤ rem.length := by
  by_contra hc
  rw [writeLoop_short k rem acc (by omega)] at h
  simp at h

/-! ### Unfolding the entry loop -/

/-- `write_file` never lengthens the unread stream. -/
theorem write_file_rem_length (p rem : List Nat) (len : Int) (fs : FS) :
    ((write_file p rem len fs).2.2.2).length ≤ rem.length := by
  unfold write_file
  dsimp only
  split
  · split
    · exact writeLoop_rem_length _ _ _
    · exact writeLoop_rem_length _ _ _
  · exact Nat.le_refl _

/-- `write_file` reads its signed length only through the copy loop's
iteration count `len.toNat` (`while(pos < len)` with `pos` starting at 0). -/
theorem write_file_toNat_congr (p rem : List Nat) (len1 len2 : Int) (fs : FS)
    (h : len1.toNat = len2.toNat) :
    write_file p rem len1 fs = write_file p rem len2 fs := by
  unfold write_file
  rw [h]

theorem parseStep_congr (dest : List Nat) (num : Int) (rem : List Nat) (fs : FS) (pos : Nat)
    (rc1 rc2 : List Nat → FS → Nat → Bool × FS × List Event)
    (h : ∀ r f p, r.length < rem.length → rc1 r f p = rc2 r f p) :
    parseStep dest num rc1 rem fs pos = parseStep dest num rc2 rem fs pos := by
  unfold parseStep
  by_cases h3 : rem.length < 3
  · simp only [if_pos h3]
  · simp only [if_neg h3]
    by_cases hEnd : rem.take 3 = [69, 78, 68]
    · simp only [if_pos hEnd]
    · simp only [if_neg hEnd]
      by_cases h4 : (rem.drop 3).length < 4
      · simp only [if_pos h4]
      · simp only [if_neg h4]
        simp only [List.length_drop] at h3 h4
        have hr4 : ∀ nl : Nat, ((((rem.drop 3).drop 4).drop 1).drop nl).length < rem.length := by
          intro nl; simp only [List.length_drop]; omega
        by_cases hDir : rem.take 3 = [68, 73, 82]
        · simp only [if_pos hDir]
          rcases hc : (create_directory fs
              (concatPaths dest (stripDotSlash ((((rem.drop 3).drop 4).drop 1).take
                ((((rem.drop 3).drop 4).head?).getD 0))))).1 with _ | fs1
          · simp only [hc]
          · simp only [hc]
            rw [h _ _ _ (hr4 _)]
        · simp only [if_neg hDir]
          rcases hc : (create_directory fs
              (get_directory (concatPaths dest (stripDotSlash ((((rem.drop 3).drop 4).drop 1).take
                ((((rem.drop 3).drop 4).head?).getD 0)))))).1 with _ | fs1
          · simp only [hc]
          · simp only [hc]
            have hw : ∀ l : Int,
                ((write_file (concatPaths dest (stripDotSlash ((((rem.drop 3).drop 4).drop 1).take
                    ((((rem.drop 3).drop 4).head?).getD 0))))
                  ((((rem.drop 3).drop 4).drop 1).drop ((((rem.drop 3).drop 4).head?).getD 0))
                  l fs1).2.2.2).length < rem.length := by
              intro l
              calc ((write_file _ ((((rem.drop 3).drop 4).drop 1).drop
                      ((((rem.drop 3).drop 4).head?).getD 0)) l fs1).2.2.2).length
                  ≤ (((((rem.drop 3).drop 4).drop 1).drop
                      ((((rem.drop 3).drop 4).head?).getD 0))).length :=
                    write_file_rem_length _ _ _ _
                _ < rem.length := hr4 _
            split
            · rw [h _ _ _ (hw _)]
            · rfl

theorem parseLoopF_succ (dest : List Nat) (num : Int) (n : Nat) (rem : List Nat) (fs : FS) (pos : Nat) :
    parseLoopF dest num (n + 1) rem fs pos =
      parseStep dest num (parseLoopF dest num n) rem fs pos := rfl

theorem parseLoopF_congr (dest : List Nat) (num : Int) :
    ∀ f1 (rem : List Nat) (fs : FS) (pos f2 : Nat), rem.length < f1 → rem.length < f2 →
      parseLoopF dest num f1 rem fs pos = parseLoopF dest num f2 rem fs pos := by
  intro f1
  induction f1 with
  | zero => intro rem fs pos f2 h1; omega
  | succ g ih =>
    intro rem fs pos f2 h1 h2
    match f2, h2 with
    | g2 + 1, h2 =>
      rw [parseLoopF_succ, parseLoopF_succ]
      apply parseStep_congr
      intro r f p hr
      exact ih r f p g2 (by omega) (by omega)

/-- One-step unfolding of the entry loop. -/
theorem parseLoop_eq (dest : List Nat) (num : Int) (rem : List Nat) (fs : FS) (pos : Nat) :
    parseLoop dest num rem fs pos = parseStep dest num (parseLoop dest num) rem fs pos := by
  unfold parseLoop
  rw [parseLoopF_succ]
  apply parseStep_congr
  intro r f p hr
  exact parseLoopF_congr dest num (rem.length) r f p (r.length + 1) hr (by omega)

/-- A stream with fewer than 3 bytes yields "Unexpected end of archive". -/
theorem parseLoop_short (dest : List Nat) (num : Int) (rem : List Nat) (fs : FS) (pos : Nat)
    (h : rem.length < 3) : parseLoop dest num rem fs pos = (false, fs, [Event.error]) := by
  rw [parseLoop_eq]; unfold parseStep; rw [if_pos h]

/-- `write_file` called with a stream that begins with the full payload
behaves like `write_file` on the payload alone and, on success, leaves
exactly the trailing stream unread. -/
theorem write_file_append (p pl σ : List Nat) (fs : FS) :
    (write_file p (pl ++ σ) pl.length fs).1 = (write_file p pl pl.length fs).1 ∧
      (write_file p (pl ++ σ) pl.length fs).2.1 = (write_file p pl pl.length fs).2.1 ∧
      (write_file p (pl ++ σ) pl.length fs).2.2.1 = (write_file p pl pl.length fs).2.2.1 ∧
      ((write_file p (pl ++ σ) pl.length fs).1 = true →
        (write_file p (pl ++ σ) pl.length fs).2.2.2 = σ) := by
  unfold write_file
  dsimp only
  simp only [Int.toNat_ofNat]
  split
  · rw [writeLoop_exact pl.length (pl ++ σ) [] (by simp),
      writeLoop_exact pl.length pl [] (Nat.le_refl _)]
    simp [List.take_left, List.drop_left, List.take_length, List.drop_length]
  · simp

/-- Running the entry loop on the wire form of a well-formed entry followed
by more stream is: run `stepE` on the entry, then continue (or abort). -/
theorem parseLoop_gencode_cons (dest : List Nat) (num : Int) (e : GEntry) (he : WFG e)
    (σ : List Nat) (fs : FS) (pos : Nat) :
    parseLoop dest num (gencodeEntry e ++ σ) fs pos =
      (if (stepE dest num e fs pos).1 then
        ((parseLoop dest num σ (stepE dest num e fs pos).2.1 (pos + 1)).1,
         (parseLoop dest num σ (stepE dest num e fs pos).2.1 (pos + 1)).2.1,
         (stepE dest num e fs pos).2.2 ++
           (parseLoop dest num σ (stepE dest num e fs pos).2.1 (pos + 1)).2.2)
       else (false, (stepE dest num e fs pos).2.1, (stepE dest num e fs pos).2.2)) := by
  conv_lhs => rw [parseLoop_eq]
  cases e with
  | gdir sb nlen name =>
    obtain ⟨hsb, hname⟩ := he
    unfold parseStep stepE
    have e1 : gencodeEntry (GEntry.gdir sb nlen name) ++ σ =
        68 :: 73 :: 82 :: (sb ++ nlen :: (name ++ σ)) := by
      simp [gencodeEntry]
    rw [e1]
    dsimp only
    rw [if_neg (by simp)]
    have t3 : (68 :: 73 :: 82 :: (sb ++ nlen :: (name ++ σ)) : List Nat).take 3 =
        [68, 73, 82] := rfl
    rw [t3]
    rw [if_neg (by decide)]
    have d3 : (68 :: 73 :: 82 :: (sb ++ nlen :: (name ++ σ)) : List Nat).drop 3 =
        sb ++ nlen :: (name ++ σ) := rfl
    rw [d3]
    rw [if_neg (by simp [hsb])]
    rw [if_pos rfl]
    have d4 : (sb ++ nlen :: (name ++ σ)).drop 4 = nlen :: (name ++ σ) := List.drop_left' hsb
    rw [d4]
    dsimp only [List.head?, Option.getD, List.drop]
    have tn : (name ++ σ).take nlen = name := List.take_left' hname
    have dn : (name ++ σ).drop nlen = σ := List.drop_left' hname
    rw [tn, dn]
    unfold entryPath
    rcases hc : (create_directory fs (concatPaths dest (stripDotSlash name))).1 with _ | fs1 <;>
      simp [hc]
  | gfile tg sb nlen name payload =>
    obtain ⟨htg3, htgE, htgD, hsb, hname, hpl⟩ := he
    unfold parseStep stepE
    have e1 : gencodeEntry (GEntry.gfile tg sb nlen name payload) ++ σ =
        tg ++ (sb ++ nlen :: (name ++ (payload ++ σ))) := by
      simp [gencodeEntry]
    rw [e1]
    dsimp only
    rw [if_neg (by simp [htg3])]
    have t3 : (tg ++ (sb ++ nlen :: (name ++ (payload ++ σ)))).take 3 = tg :=
      List.take_left' htg3
    rw [t3]
    rw [if_neg htgE]
    have d3 : (tg ++ (sb ++ nlen :: (name ++ (payload ++ σ)))).drop 3 =
        sb ++ nlen :: (name ++ (payload ++ σ)) := List.drop_left' htg3
    rw [d3]
    rw [if_neg (by simp [hsb])]
    rw [if_neg htgD]
    have t4 : (sb ++ nlen :: (name ++ (payload ++ σ))).take 4 = sb := List.take_left' hsb
    have d4 : (sb ++ nlen :: (name ++ (payload ++ σ))).drop 4 =
        nlen :: (name ++ (payload ++ σ)) := List.drop_left' hsb
    rw [t4, d4]
    dsimp only [List.head?, Option.getD, List.drop]
    have tn : (name ++ (payload ++ σ)).take nlen = name := List.take_left' hname
    have dn : (name ++ (payload ++ σ)).drop nlen = payload ++ σ := List.drop_left' hname
    rw [tn, dn]
    unfold entryPath
    rcases hc : (create_directory fs
        (get_directory (concatPaths dest (stripDotSlash name)))).1 with _ | fs1
    · simp [hc]
    · obtain ⟨w1, w2, w3, w4⟩ := write_file_append
        (concatPaths dest (stripDotSlash name)) payload σ fs1
      dsimp only
      rw [write_file_toNat_congr (concatPaths dest (stripDotSlash name)) (payload ++ σ)
        (sle4 sb) (payload.length : Int) fs1 (by rw [Int.toNat_ofNat]; exact hpl.symm)]
      rcases hw : (write_file (concatPaths dest (stripDotSlash name))
          payload payload.length fs1).1 with _ | _
      · simp [hc, w1, w2, w3, hw]
      · have hσ : (write_file (concatPaths dest (stripDotSlash name))
            (payload ++ σ) payload.length fs1).2.2.2 = σ := w4 (by rw [w1, hw])
        simp [hc, w1, w2, w3, hw, hσ]

/-- Reading the `END` sentinel exits the loop successfully; bytes after it
are ignored. -/
theorem parseLoop_end (dest : List Nat) (num : Int) (tail : List Nat) (fs : FS) (pos : Nat) :
    parseLoop dest num ([69, 78, 68] ++ tail) fs pos = (true, fs, []) := by
  rw [parseLoop_eq]; unfold parseStep
  rw [if_neg (by simp)]
  have h : ([69, 78, 68] ++ tail : List Nat).take 3 = [69, 78, 68] := rfl
  rw [h, if_pos rfl]

/-- The entry loop on an encoded well-formed entry sequence is the
entry-by-entry interpretation `runEntries`. -/
theorem parseLoop_runEntries (dest : List Nat) (num : Int) : ∀ ges : List GEntry,
    (∀ e ∈ ges, WFG e) → ∀ (tail : List Nat) (fs : FS) (pos : Nat),
    parseLoop dest num (gencodeList ges ++ [69, 78, 68] ++ tail) fs pos =
      runEntries dest num ges fs pos := by
  intro ges
  induction ges with
  | nil =>
    intro _ tail fs pos
    have h : gencodeList [] ++ [69, 78, 68] ++ tail = [69, 78, 68] ++ tail := by
      simp [gencodeList]
    rw [h, parseLoop_end]
    rfl
  | cons e rest ih =>
    intro hwf tail fs pos
    have hsplit : gencodeList (e :: rest) ++ [69, 78, 68] ++ tail
        = gencodeEntry e ++ (gencodeList rest ++ [69, 78, 68] ++ tail) := by
      simp [gencodeList]
    rw [hsplit, parseLoop_gencode_cons dest num e (hwf e (by simp)) _ fs pos]
    rw [ih (fun e' he' => hwf e' (by simp [he'])) tail]
    rfl

/-- A successful `write_file` consumed exactly `len` bytes of the stream. -/
theorem write_file_success (p rem : List Nat) (len : Int) (fs : FS)
    (h : (write_file p rem len fs).1 = true) :
    len.toNat ≤ rem.length ∧ (write_file p rem len fs).2.2.2 = rem.drop len.toNat := by
  unfold write_file at h ⊢
  dsimp only at h ⊢
  by_cases hf : fopenOk fs (slashconv (stripDotSlash p))
  · rw [if_pos hf] at h ⊢
    rcases Nat.lt_or_ge rem.length len.toNat with hl | hl
    · rw [writeLoop_short len.toNat rem [] hl] at h
      simp at h
    · rw [writeLoop_exact len.toNat rem [] hl] at h ⊢
      exact ⟨hl, by simp⟩
  · rw [if_neg hf] at h
    simp at h

/-- Decomposition: a run of the entry loop that terminates successfully was
reading the wire form of some well-formed entry sequence, followed by `END`
and arbitrary ignored trailing bytes. -/
theorem parseLoop_success_decomp (dest : List Nat) (num : Int) :
    ∀ (n : Nat) (rem : List Nat), rem.length ≤ n → ∀ (fs : FS) (pos : Nat),
      (parseLoop dest num rem fs pos).1 = true →
      ∃ (ges : List GEntry) (tail : List Nat),
        (∀ e ∈ ges, WFG e) ∧ rem = gencodeList ges ++ [69, 78, 68] ++ tail := by
  intro n
  induction n with
  | zero =>
    intro rem hlen fs pos h
    rw [parseLoop_short dest num rem fs pos (by omega)] at h
    simp at h
  | succ n ih =>
    intro rem hlen fs pos h
    by_cases h3 : rem.length < 3
    · rw [parseLoop_short dest num rem fs pos h3] at h; simp at h
    by_cases hEnd : rem.take 3 = [69, 78, 68]
    · refine ⟨[], rem.drop 3, by simp, ?_⟩
      have hta := List.take_append_drop 3 rem
      rw [hEnd] at hta
      simpa [gencodeList] using hta.symm
    rw [parseLoop_eq] at h
    unfold parseStep at h
    rw [if_neg h3, if_neg hEnd] at h
    by_cases h4 : (rem.drop 3).length < 4
    · rw [if_pos h4] at h; simp at h
    rw [if_neg h4] at h
    dsimp only at h
    have hL7 : rem.length ≥ 7 := by
      simp only [List.length_drop] at h4; omega
    rcases hr2 : (rem.drop 3).drop 4 with _ | ⟨b, r3⟩
    · -- the stream ends right after the size field: the loop continues on an
      -- empty stream and the next tag read fails, contradicting success
      rw [hr2] at h
      dsimp only [List.head?, Option.getD, List.drop, List.take] at h
      by_cases hDir : rem.take 3 = [68, 73, 82]
      · rw [if_pos hDir] at h
        rcases hc : (create_directory fs (concatPaths dest (stripDotSlash []))).1 with _ | fs1
        · simp [hc] at h
        · simp only [hc] at h
          rw [parseLoop_short dest num [] fs1 (pos + 1) (by simp)] at h
          simp at h
      · rw [if_neg hDir] at h
        rcases hc : (create_directory fs
            (get_directory (concatPaths dest (stripDotSlash [])))).1 with _ | fs1
        · simp [hc] at h
        · simp only [hc] at h
          rcases hw : (write_file (concatPaths dest (stripDotSlash []))
              [] (sle4 ((rem.drop 3).take 4)) fs1).1 with _ | _
          · rw [if_neg (by simp [hw])] at h
            simp at h
          · rw [if_pos hw] at h
            have hnil : (write_file (concatPaths dest (stripDotSlash []))
                [] (sle4 ((rem.drop 3).take 4)) fs1).2.2.2 = [] := by
              have := write_file_rem_length (concatPaths dest (stripDotSlash []))
                [] (sle4 ((rem.drop 3).take 4)) fs1
              simpa using this
            rw [hnil] at h
            rw [parseLoop_short dest num [] _ (pos + 1) (by simp)] at h
            simp at h
    · -- the name-length byte is `b`; the name is the next `b` bytes
      rw [hr2] at h
      dsimp only [List.head?, Option.getD, List.drop] at h
      have hLr3 : r3.length = rem.length - 8 := by
        have hx : ((rem.drop 3).drop 4).length = rem.length - 7 := by simp
        rw [hr2] at hx
        simp at hx
        omega
      by_cases hDir : rem.take 3 = [68, 73, 82]
      · rw [if_pos hDir] at h
        rcases hc : (create_directory fs (concatPaths dest (stripDotSlash (r3.take b)))).1
          with _ | fs1
        · simp [hc] at h
        · simp only [hc] at h
          have hlen4 : (r3.drop b).length ≤ n := by
            simp only [List.length_drop]; omega
          obtain ⟨ges, tail, hwf, hdec⟩ := ih (r3.drop b) hlen4 fs1 (pos + 1) h
          have hble : b ≤ r3.length := by
            have hy := congrArg List.length hdec
            simp at hy
            omega
          refine ⟨GEntry.gdir ((rem.drop 3).take 4) b (r3.take b) :: ges, tail, ?_, ?_⟩
          · intro e he
            rcases List.mem_cons.mp he with rfl | hmem
            · exact ⟨by simp; omega, by simp; omega⟩
            · exact hwf e hmem
          · have hdec' : r3.drop b =
                (List.map gencodeEntry ges).flatten ++ (69 :: 78 :: 68 :: tail) := by
              simpa [gencodeList] using hdec
            simp only [gencodeList, List.map_cons, List.flatten_cons, gencodeEntry,
              List.append_assoc, List.cons_append, List.nil_append]
            rw [← hdec', List.take_append_drop b r3, ← hr2]
            have hta4 := List.take_append_drop 4 (rem.drop 3)
            rw [hta4]
            have hta3 := List.take_append_drop 3 rem
            rw [hDir] at hta3
            simpa using hta3.symm
      · rw [if_neg hDir] at h
        rcases hc : (create_directory fs
            (get_directory (concatPaths dest (stripDotSlash (r3.take b))))).1 with _ | fs1
        · simp [hc] at h
        · simp only [hc] at h
          rcases hw : (write_file (concatPaths dest (stripDotSlash (r3.take b)))
              (r3.drop b) (sle4 ((rem.drop 3).take 4)) fs1).1 with _ | _
          · rw [if_neg (by simp [hw])] at h
            simp at h
          · rw [if_pos hw] at h
            obtain ⟨hwl, hwrem⟩ := write_file_success _ _ _ _ hw
            rw [hwrem] at h
            have hlen5 : ((r3.drop b).drop (sle4 ((rem.drop 3).take 4)).toNat).length ≤ n := by
              simp only [List.length_drop]; omega
            obtain ⟨ges, tail, hwf, hdec⟩ := ih _ hlen5 _ (pos + 1) h
            have hwl' : (sle4 ((rem.drop 3).take 4)).toNat ≤ r3.length - b := by
              simpa using hwl
            have hble : b ≤ r3.length := by
              have hy := congrArg List.length hdec
              simp at hy
              omega
            refine ⟨GEntry.gfile (rem.take 3) ((rem.drop 3).take 4) b (r3.take b)
              ((r3.drop b).take ((sle4 ((rem.drop 3).take 4)).toNat)) :: ges, tail, ?_, ?_⟩
            · intro e he
              rcases List.mem_cons.mp he with rfl | hmem
              · refine ⟨by simp; omega, hEnd, hDir, by simp; omega, by simp; omega, ?_⟩
                simp only [List.length_take, List.length_drop]
                omega
              · exact hwf e hmem
            · have hdec' : (r3.drop b).drop ((sle4 ((rem.drop 3).take 4)).toNat) =
                  (List.map gencodeEntry ges).flatten ++ (69 :: 78 :: 68 :: tail) := by
                simpa [gencodeList] using hdec
              simp only [gencodeList, List.map_cons, List.flatten_cons, gencodeEntry,
                List.append_assoc, List.cons_append, List.nil_append]
              rw [← hdec', List.take_append_drop ((sle4 ((rem.drop 3).take 4)).toNat) (r3.drop b),
                List.take_append_drop b r3, ← hr2]
              have hta4 := List.take_append_drop 4 (rem.drop 3)
              rw [hta4]
              exact (List.take_append_drop 3 rem).symm

/-! ### File-table (association list) lemmas -/

theorem keysOf_nil : keysOf [] = [] := rfl

theorem keysOf_cons (r w : List Nat) (fl : List (List Nat × List Nat)) :
    keysOf ((r, w) :: fl) = r :: keysOf fl := rfl

theorem setFile_nil (p v : List Nat) : setFile [] p v = [(p, v)] := rfl

theorem setFile_cons (r w p v : List Nat) (fl : List (List Nat × List Nat)) :
    setFile ((r, w) :: fl) p v =
      if r = p then (p, v) :: fl else (r, w) :: setFile fl p v := rfl

theorem lookupF_nil (q : List Nat) : lookupF [] q = none := rfl

theorem lookupF_cons (r w q : List Nat) (fl : List (List Nat × List Nat)) :
    lookupF ((r, w) :: fl) q = if r = q then some w else lookupF fl q := rfl

theorem lookupF_setFile_self (fl : List (List Nat × List Nat)) (p v : List Nat) :
    lookupF (setFile fl p v) p = some v := by
  induction fl with
  | nil => simp [setFile_nil, lookupF_cons, lookupF_nil]
  | cons x fl ih =>
    obtain ⟨q, w⟩ := x
    rw [setFile_cons]
    by_cases hq : q = p
    · rw [if_pos hq, lookupF_cons, if_pos rfl]
    · rw [if_neg hq, lookupF_cons, if_neg hq, ih]

theorem lookupF_setFile_ne (fl : List (List Nat × List Nat)) (p v q : List Nat)
    (hq : q ≠ p) : lookupF (setFile fl p v) q = lookupF fl q := by
  induction fl with
  | nil =>
    rw [setFile_nil, lookupF_cons, lookupF_nil, if_neg (fun h => hq h.symm)]
  | cons x fl ih =>
    obtain ⟨r, w⟩ := x
    rw [setFile_cons]
    by_cases hr : r = p
    · subst hr
      rw [if_pos rfl, lookupF_cons, lookupF_cons,
        if_neg (fun h => hq h.symm), if_neg (fun h => hq h.symm)]
    · rw [if_neg hr, lookupF_cons, lookupF_cons, ih]

theorem lookupF_eq_none (fl : List (List Nat × List Nat)) (q : List Nat)
    (h : q ∉ keysOf fl) : lookupF fl q = none := by
  induction fl with
  | nil => rfl
  | cons x fl ih =>
    obtain ⟨r, w⟩ := x
    rw [keysOf_cons, List.mem_cons] at h
    push_neg at h
    rw [lookupF_cons, if_neg (fun hh => h.1 hh.symm), ih h.2]

theorem keysOf_setFile_mem (fl : List (List Nat × List Nat)) (p v : List Nat)
    (h : p ∈ keysOf fl) : keysOf (setFile fl p v) = keysOf fl := by
  induction fl with
  | nil => simp [keysOf_nil] at h
  | cons x fl ih =>
    obtain ⟨r, w⟩ := x
    rw [setFile_cons]
    by_cases hr : r = p
    · rw [if_pos hr, keysOf_cons, keysOf_cons, hr]
    · rw [keysOf_cons, List.mem_cons] at h
      rcases h with h | h
      · exact absurd h.symm hr
      · rw [if_neg hr, keysOf_cons, keysOf_cons, ih h]

theorem keysOf_setFile_not_mem (fl : List (List Nat × List Nat)) (p v : List Nat)
    (h : p ∉ keysOf fl) : keysOf (setFile fl p v) = keysOf fl ++ [p] := by
  induction fl with
  | nil => rfl
  | cons x fl ih =>
    obtain ⟨r, w⟩ := x
    rw [keysOf_cons, List.mem_cons] at h
    push_neg at h
    rw [setFile_cons, if_neg (fun hh => h.1 hh.symm), keysOf_cons, keysOf_cons,
      ih h.2, List.cons_append]

theorem mem_keysOf_setFile (fl : List (List Nat × List Nat)) (p v q : List Nat)
    (h : q ∈ keysOf fl) : q ∈ keysOf (setFile fl p v) := by
  by_cases hp : p ∈ keysOf fl
  · rw [keysOf_setFile_mem fl p v hp]; exact h
  · rw [keysOf_setFile_not_mem fl p v hp]; exact List.mem_append_left _ h

theorem mem_keysOf_setFile_self (fl : List (List Nat × List Nat)) (p v : List Nat) :
    p ∈ keysOf (setFile fl p v) := by
  by_cases hp : p ∈ keysOf fl
  · rw [keysOf_setFile_mem fl p v hp]; exact hp
  · rw [keysOf_setFile_not_mem fl p v hp]; simp

theorem nodup_keysOf_setFile (fl : List (List Nat × List Nat)) (p v : List Nat)
    (h : (keysOf fl).Nodup) : (keysOf (setFile fl p v)).Nodup := by
  by_cases hp : p ∈ keysOf fl
  · rw [keysOf_setFile_mem fl p v hp]; exact h
  · rw [keysOf_setFile_not_mem fl p v hp]
    simp [List.nodup_append, h, hp]

/-- Two file tables with pointwise-equal keys, no duplicate keys, and equal
lookups are equal. -/
theorem lookupF_ext : ∀ a b : List (List Nat × List Nat), keysOf a = keysOf b →
    (keysOf b).Nodup → (∀ q, lookupF a q = lookupF b q) → a = b := by
  intro a
  induction a with
  | nil =>
    intro b hk _ _
    cases b with
    | nil => rfl
    | cons x b =>
      obtain ⟨r, w⟩ := x
      rw [keysOf_nil, keysOf_cons] at hk
      exact absurd hk (by simp)
  | cons x a ih =>
    intro b hk hnd hl
    match b with
    | [] =>
      obtain ⟨p, v⟩ := x
      rw [keysOf_nil, keysOf_cons] at hk
      exact absurd hk (by simp)
    | (q, w) :: b =>
      obtain ⟨p, v⟩ := x
      rw [keysOf_cons, keysOf_cons] at hk
      injection hk with hpq hk'
      subst hpq
      rw [keysOf_cons, List.nodup_cons] at hnd
      have hv : v = w := by
        have hh := hl p
        rw [lookupF_cons, lookupF_cons, if_pos rfl, if_pos rfl] at hh
        injection hh
      subst hv
      congr 1
      apply ih b hk' hnd.2
      intro q'
      by_cases hq : q' = p
      · subst hq
        rw [lookupF_eq_none b q' hnd.1, lookupF_eq_none a q' (by rw [hk']; exact hnd.1)]
      · have hh := hl q'
        rw [lookupF_cons, lookupF_cons,
          if_neg (fun hc : p = q' => hq hc.symm), if_neg (fun hc : p = q' => hq hc.symm)] at hh
        exact hh

theorem removeFirst_cons_self (l : List (List Nat)) (p : List Nat) :
    removeFirst (p :: l) p = l := by
  simp [removeFirst]

theorem setFile_setFile (fl : List (List Nat × List Nat)) (p v w : List Nat) :
    setFile (setFile fl p v) p w = setFile fl p w := by
  induction fl with
  | nil => simp [setFile_nil, setFile_cons]
  | cons x fl ih =>
    obtain ⟨r, u⟩ := x
    by_cases hr : r = p
    · rw [setFile_cons, if_pos hr, setFile_cons, if_pos rfl, setFile_cons, if_pos hr]
    · rw [setFile_cons, if_neg hr, setFile_cons, if_neg hr, setFile_cons, if_neg hr, ih]

/-! ### Materializer lemmas -/

/-- A successful `create_directory` emits no events, touches only the
directory list (monotonically), and any directory it adds did not exist as a
file. -/
theorem create_directory_state (fs : FS) (p : List Nat) (fs' : FS)
    (h : (create_directory fs p).1 = some fs') :
    (create_directory fs p).2 = [] ∧ fs'.files = fs.files ∧ fs'.openh = fs.openh ∧
      fs.dirs ⊆ fs'.dirs ∧ ∀ q, q ∈ fs'.dirs → q ∈ fs.dirs ∨ q ∉ keysOf fs.files := by
  unfold create_directory at h ⊢
  by_cases h1 : p = [] ∨ (p.head? = some 46 ∧ (p.tail.head? = none ∨ p.tail.head? = some 46))
  · rw [if_pos h1] at h ⊢
    injection h with h
    subst h
    exact ⟨rfl, rfl, rfl, fun _ hq => hq, fun q hq => Or.inl hq⟩
  · rw [if_neg h1] at h ⊢
    dsimp only at h ⊢
    by_cases h2 : stripDotSlash p ∈ fs.dirs
    · rw [if_pos h2] at h ⊢
      injection h with h
      subst h
      exact ⟨rfl, rfl, rfl, fun _ hq => hq, fun q hq => Or.inl hq⟩
    · rw [if_neg h2] at h ⊢
      by_cases h3 : mkdirOk fs (stripDotSlash p)
      · rw [if_pos h3] at h ⊢
        injection h with h
        subst h
        refine ⟨rfl, rfl, rfl, fun q hq => List.mem_append_left _ hq, ?_⟩
        intro q hq
        rcases List.mem_append.mp hq with hq | hq
        · exact Or.inl hq
        · simp only [List.mem_singleton] at hq
          subst hq
          exact Or.inr h3.2.2.1
      · rw [if_neg h3] at h
        exact absurd h (by simp)

/-- If `create_directory` succeeded once, it succeeds as a silent no-op on
any filesystem whose directories include the result's. -/
theorem create_directory_again (fs : FS) (p : List Nat) (fs' : FS)
    (h : (create_directory fs p).1 = some fs') (g : FS) (hd : ∀ q ∈ fs'.dirs, q ∈ g.dirs) :
    create_directory g p = (some g, []) := by
  unfold create_directory at h ⊢
  by_cases h1 : p = [] ∨ (p.head? = some 46 ∧ (p.tail.head? = none ∨ p.tail.head? = some 46))
  · rw [if_pos h1]
  · rw [if_neg h1] at h ⊢
    dsimp only at h ⊢
    by_cases h2 : stripDotSlash p ∈ fs.dirs
    · rw [if_pos h2] at h
      injection h with h
      subst h
      rw [if_pos (hd _ h2)]
    · rw [if_neg h2] at h
      by_cases h3 : mkdirOk fs (stripDotSlash p)
      · rw [if_pos h3] at h
        injection h with h
        subst h
        rw [if_pos (hd _ (List.mem_append_right _ (by simp)))]
      · rw [if_neg h3] at h
        exact absurd h (by simp)

/-- `write_file` with a stream that is exactly the payload, on an openable
path: truncate-and-write semantics, one `new_file` event, handle closed. -/
theorem write_file_exact (f pl : List Nat) (fs : FS)
    (hf : fopenOk fs (slashconv (stripDotSlash f))) :
    write_file f pl pl.length fs =
      (true,
       { fs with files := setFile fs.files (slashconv (stripDotSlash f)) pl },
       [Event.new_file (slashconv (stripDotSlash f))], []) := by
  unfold write_file
  dsimp only
  simp only [Int.toNat_ofNat]
  rw [if_pos hf, writeLoop_exact pl.length pl [] (Nat.le_refl _)]
  dsimp only
  rw [if_pos rfl]
  rw [List.take_length, List.drop_length, List.nil_append, setFile_setFile,
    removeFirst_cons_self]

/-- `write_file` when the stream holds fewer than `len` bytes: failure, an
`error` after the `new_file`, the handle left open, and the complete chunks
left in the destination file. -/
theorem write_file_short_state (f rem : List Nat) (len : Int) (fs : FS)
    (hf : fopenOk fs (slashconv (stripDotSlash f))) (hs : rem.length < len.toNat) :
    write_file f rem len fs =
      (false,
       { fs with
          files := setFile fs.files (slashconv (stripDotSlash f))
            (rem.take (4096 * (rem.length / 4096))),
          openh := slashconv (stripDotSlash f) :: fs.openh },
       [Event.new_file (slashconv (stripDotSlash f)), Event.error], []) := by
  unfold write_file
  dsimp only
  rw [if_pos hf, writeLoop_short len.toNat rem [] hs]
  dsimp only
  rw [if_neg (by simp)]
  rw [List.nil_append, setFile_setFile]

theorem write_file_success_fopen (f rem : List Nat) (len : Int) (fs : FS)
    (h : (write_file f rem len fs).1 = true) :
    fopenOk fs (slashconv (stripDotSlash f)) := by
  by_contra hf
  unfold write_file at h
  dsimp only at h
  rw [if_neg hf] at h
  simp at h

theorem write_file_dirs (f rem : List Nat) (len : Int) (fs : FS) :
    (write_file f rem len fs).2.1.dirs = fs.dirs := by
  unfold write_file
  dsimp only
  split
  · split <;> rfl
  · rfl

theorem write_file_keys_mono (f rem : List Nat) (len : Int) (fs : FS) (q : List Nat)
    (h : q ∈ keysOf fs.files) : q ∈ keysOf (write_file f rem len fs).2.1.files := by
  unfold write_file
  dsimp only
  split
  · split
    · exact mem_keysOf_setFile _ _ _ _ (mem_keysOf_setFile _ _ _ _ h)
    · exact mem_keysOf_setFile _ _ _ _ (mem_keysOf_setFile _ _ _ _ h)
  · exact h

theorem write_file_lookup_ne (f rem : List Nat) (len : Int) (fs : FS) (q : List Nat)
    (hq : q ≠ slashconv (stripDotSlash f)) :
    lookupF (write_file f rem len fs).2.1.files q = lookupF fs.files q := by
  unfold write_file
  dsimp only
  split
  · split
    · rw [lookupF_setFile_ne _ _ _ _ hq, lookupF_setFile_ne _ _ _ _ hq]
    · rw [lookupF_setFile_ne _ _ _ _ hq, lookupF_setFile_ne _ _ _ _ hq]
  · rfl

theorem write_file_nodup (f rem : List Nat) (len : Int) (fs : FS)
    (h : (keysOf fs.files).Nodup) : (keysOf (write_file f rem len fs).2.1.files).Nodup := by
  unfold write_file
  dsimp only
  split
  · split
    · exact nodup_keysOf_setFile _ _ _ (nodup_keysOf_setFile _ _ _ h)
    · exact nodup_keysOf_setFile _ _ _ (nodup_keysOf_setFile _ _ _ h)
  · exact h

/-! ### Per-entry step lemmas -/

theorem runEntries_nil (dest : List Nat) (num : Int) (fs : FS) (pos : Nat) :
    runEntries dest num [] fs pos = (true, fs, []) := rfl

theorem runEntries_cons (dest : List Nat) (num : Int) (e : GEntry) (rest : List GEntry)
    (fs : FS) (pos : Nat) :
    runEntries dest num (e :: rest) fs pos =
      (if (stepE dest num e fs pos).1 then
        ((runEntries dest num rest (stepE dest num e fs pos).2.1 (pos + 1)).1,
         (runEntries dest num rest (stepE dest num e fs pos).2.1 (pos + 1)).2.1,
         (stepE dest num e fs pos).2.2 ++
           (runEntries dest num rest (stepE dest num e fs pos).2.1 (pos + 1)).2.2)
       else (false, (stepE dest num e fs pos).2.1, (stepE dest num e fs pos).2.2)) := rfl

theorem stepE_gdir_success (dest : List Nat) (num : Int) (sb : List Nat) (nl : Nat)
    (nm : List Nat) (fs : FS) (pos : Nat) (fs1 : FS)
    (hc : (create_directory fs (entryPath dest nm)).1 = some fs1) :
    stepE dest num (GEntry.gdir sb nl nm) fs pos =
      (true, fs1, [Event.status (pos + 1) num, Event.message,
        Event.new_directory (entryPath dest nm)]) := by
  unfold stepE
  dsimp only
  simp only [hc]
  rw [(create_directory_state fs _ fs1 hc).1, List.append_nil]

theorem stepE_gfile_success (dest : List Nat) (num : Int) (tg sb : List Nat) (nl : Nat)
    (nm pl : List Nat) (fs : FS) (pos : Nat) (fs1 : FS)
    (hc : (create_directory fs (get_directory (entryPath dest nm))).1 = some fs1)
    (hw : (write_file (entryPath dest nm) pl pl.length fs1).1 = true) :
    stepE dest num (GEntry.gfile tg sb nl nm pl) fs pos =
      (true, { fs1 with files := setFile fs1.files (fileKey dest nm) pl },
       [Event.status (pos + 1) num, Event.message, Event.new_file (fileKey dest nm)]) := by
  have hf := write_file_success_fopen _ _ _ _ hw
  unfold stepE
  dsimp only
  simp only [hc]
  rw [write_file_exact _ _ _ hf, (create_directory_state fs _ fs1 hc).1]
  unfold fileKey
  rfl

/-- A successful step is either a directory entry with a successful
`create_directory`, or a file entry with successful parent creation and
`write_file`. -/
theorem stepE_success_cases (dest : List Nat) (num : Int) (e : GEntry) (fs : FS) (pos : Nat)
    (h : (stepE dest num e fs pos).1 = true) :
    (∃ sb nl nm fs1, e = GEntry.gdir sb nl nm ∧
      (create_directory fs (entryPath dest nm)).1 = some fs1) ∨
    (∃ tg sb nl nm pl fs1, e = GEntry.gfile tg sb nl nm pl ∧
      (create_directory fs (get_directory (entryPath dest nm))).1 = some fs1 ∧
      (write_file (entryPath dest nm) pl pl.length fs1).1 = true) := by
  cases e with
  | gdir sb nl nm =>
    left
    unfold stepE at h
    dsimp only at h
    rcases hc : (create_directory fs (entryPath dest nm)).1 with _ | fs1
    · rw [hc] at h; simp at h
    · exact ⟨sb, nl, nm, fs1, rfl, hc⟩
  | gfile tg sb nl nm pl =>
    right
    unfold stepE at h
    dsimp only at h
    rcases hc : (create_directory fs (get_directory (entryPath dest nm))).1 with _ | fs1
    · rw [hc] at h; simp at h
    · simp only [hc] at h
      exact ⟨tg, sb, nl, nm, pl, fs1, rfl, hc, h⟩

theorem stepE_dirs_mono (dest : List Nat) (num : Int) (e : GEntry) (fs : FS) (pos : Nat) :
    ∀ q ∈ fs.dirs, q ∈ (stepE dest num e fs pos).2.1.dirs := by
  intro q hq
  unfold stepE
  cases e with
  | gdir sb nl nm =>
    rcases hc : (create_directory fs (entryPath dest nm)).1 with _ | fs1
    · simp only [hc]; exact hq
    · simp only [hc]
      exact (create_directory_state fs _ fs1 hc).2.2.2.1 hq
  | gfile tg sb nl nm pl =>
    rcases hc : (create_directory fs (get_directory (entryPath dest nm))).1 with _ | fs1
    · simp only [hc]; exact hq
    · simp only [hc]
      rw [write_file_dirs]
      exact (create_directory_state fs _ fs1 hc).2.2.2.1 hq

theorem stepE_keys_mono (dest : List Nat) (num : Int) (e : GEntry) (fs : FS) (pos : Nat)
    (q : List Nat) (h : q ∈ keysOf fs.files) :
    q ∈ keysOf (stepE dest num e fs pos).2.1.files := by
  unfold stepE
  cases e with
  | gdir sb nl nm =>
    rcases hc : (create_directory fs (entryPath dest nm)).1 with _ | fs1
    · simp only [hc]; exact h
    · simp only [hc]
      rw [(create_directory_state fs _ fs1 hc).2.1]
      exact h
  | gfile tg sb nl nm pl =>
    rcases hc : (create_directory fs (get_directory (entryPath dest nm))).1 with _ | fs1
    · simp only [hc]; exact h
    · simp only [hc]
      apply write_file_keys_mono
      rw [(create_directory_state fs _ fs1 hc).2.1]
      exact h

theorem stepE_nodir (dest : List Nat) (num : Int) (e : GEntry) (fs : FS) (pos : Nat)
    (q : List Nat) (hk : q ∈ keysOf fs.files) (hd : q ∉ fs.dirs) :
    q ∉ (stepE dest num e fs pos).2.1.dirs := by
  unfold stepE
  cases e with
  | gdir sb nl nm =>
    rcases hc : (create_directory fs (entryPath dest nm)).1 with _ | fs1
    · simp only [hc]; exact hd
    · simp only [hc]
      intro hmem
      rcases (create_directory_state fs _ fs1 hc).2.2.2.2 q hmem with hh | hh
      · exact hd hh
      · exact hh hk
  | gfile tg sb nl nm pl =>
    rcases hc : (create_directory fs (get_directory (entryPath dest nm))).1 with _ | fs1
    · simp only [hc]; exact hd
    · simp only [hc]
      rw [write_file_dirs]
      intro hmem
      rcases (create_directory_state fs _ fs1 hc).2.2.2.2 q hmem with hh | hh
      · exact hd hh
      · exact hh hk

theorem stepE_lookup_ne (dest : List Nat) (num : Int) (e : GEntry) (fs : FS) (pos : Nat)
    (q : List Nat)
    (hq : ∀ tg sb nl nm pl, e = GEntry.gfile tg sb nl nm pl → q ≠ fileKey dest nm) :
    lookupF (stepE dest num e fs pos).2.1.files q = lookupF fs.files q := by
  unfold stepE
  cases e with
  | gdir sb nl nm =>
    rcases hc : (create_directory fs (entryPath dest nm)).1 with _ | fs1
    · simp only [hc]
    · simp only [hc]
      rw [(create_directory_state fs _ fs1 hc).2.1]
  | gfile tg sb nl nm pl =>
    rcases hc : (create_directory fs (get_directory (entryPath dest nm))).1 with _ | fs1
    · simp only [hc]
    · simp only [hc]
      rw [write_file_lookup_ne _ _ _ _ _ (hq tg sb nl nm pl rfl),
        (create_directory_state fs _ fs1 hc).2.1]

theorem stepE_nodup (dest : List Nat) (num : Int) (e : GEntry) (fs : FS) (pos : Nat)
    (h : (keysOf fs.files).Nodup) : (keysOf (stepE dest num e fs pos).2.1.files).Nodup := by
  unfold stepE
  cases e with
  | gdir sb nl nm =>
    rcases hc : (create_directory fs (entryPath dest nm)).1 with _ | fs1
    · simp only [hc]; exact h
    · simp only [hc]
      rw [(create_directory_state fs _ fs1 hc).2.1]
      exact h
  | gfile tg sb nl nm pl =>
    rcases hc : (create_directory fs (get_directory (entryPath dest nm))).1 with _ | fs1
    · simp only [hc]; exact h
    · simp only [hc]
      apply write_file_nodup
      rw [(create_directory_state fs _ fs1 hc).2.1]
      exact h

/-! ### Entry-sequence lemmas -/

theorem runEntries_dirs_mono (dest : List Nat) (num : Int) :
    ∀ (ges : List GEntry) (fs : FS) (pos : Nat),
    ∀ q ∈ fs.dirs, q ∈ (runEntries dest num ges fs pos).2.1.dirs := by
  intro ges
  induction ges with
  | nil => intro fs pos q hq; rw [runEntries_nil]; exact hq
  | cons e rest ih =>
    intro fs pos q hq
    rw [runEntries_cons]
    by_cases hs : (stepE dest num e fs pos).1 = true
    · rw [if_pos hs]
      exact ih _ _ q (stepE_dirs_mono dest num e fs pos q hq)
    · rw [if_neg hs]
      exact stepE_dirs_mono dest num e fs pos q hq

theorem runEntries_keys_mono (dest : List Nat) (num : Int) :
    ∀ (ges : List GEntry) (fs : FS) (pos : Nat) (q : List Nat),
    q ∈ keysOf fs.files → q ∈ keysOf (runEntries dest num ges fs pos).2.1.files := by
  intro ges
  induction ges with
  | nil => intro fs pos q hq; rw [runEntries_nil]; exact hq
  | cons e rest ih =>
    intro fs pos q hq
    rw [runEntries_cons]
    by_cases hs : (stepE dest num e fs pos).1 = true
    · rw [if_pos hs]
      exact ih _ _ q (stepE_keys_mono dest num e fs pos q hq)
    · rw [if_neg hs]
      exact stepE_keys_mono dest num e fs pos q hq

theorem runEntries_nodir (dest : List Nat) (num : Int) :
    ∀ (ges : List GEntry) (fs : FS) (pos : Nat) (q : List Nat),
    q ∈ keysOf fs.files → q ∉ fs.dirs →
    q ∉ (runEntries dest num ges fs pos).2.1.dirs := by
  intro ges
  induction ges with
  | nil => intro fs pos q _ hd; rw [runEntries_nil]; exact hd
  | cons e rest ih =>
    intro fs pos q hk hd
    rw [runEntries_cons]
    by_cases hs : (stepE dest num e fs pos).1 = true
    · rw [if_pos hs]
      exact ih _ _ q (stepE_keys_mono dest num e fs pos q hk)
        (stepE_nodir dest num e fs pos q hk hd)
    · rw [if_neg hs]
      exact stepE_nodir dest num e fs pos q hk hd

theorem runEntries_lookup_ne (dest : List Nat) (num : Int) :
    ∀ (ges : List GEntry) (fs : FS) (pos : Nat) (q : List Nat),
    q ∉ writePaths dest ges →
    lookupF (runEntries dest num ges fs pos).2.1.files q = lookupF fs.files q := by
  intro ges
  induction ges with
  | nil => intro fs pos q _; rw [runEntries_nil]
  | cons e rest ih =>
    intro fs pos q hq
    have hq1 : ∀ tg sb nl nm pl, e = GEntry.gfile tg sb nl nm pl → q ≠ fileKey dest nm := by
      intro tg sb nl nm pl he hk
      subst he
      subst hk
      exact hq (by unfold writePaths; simp)
    have hq2 : q ∉ writePaths dest rest := by
      intro hmem
      apply hq
      cases e <;> unfold writePaths <;> simp [hmem]
    rw [runEntries_cons]
    by_cases hs : (stepE dest num e fs pos).1 = true
    · rw [if_pos hs]
      rw [ih _ _ q hq2]
      exact stepE_lookup_ne dest num e fs pos q hq1
    · rw [if_neg hs]
      exact stepE_lookup_ne dest num e fs pos q hq1

theorem runEntries_nodup (dest : List Nat) (num : Int) :
    ∀ (ges : List GEntry) (fs : FS) (pos : Nat),
    (keysOf fs.files).Nodup → (keysOf (runEntries dest num ges fs pos).2.1.files).Nodup := by
  intro ges
  induction ges with
  | nil => intro fs pos h; rw [runEntries_nil]; exact h
  | cons e rest ih =>
    intro fs pos h
    rw [runEntries_cons]
    by_cases hs : (stepE dest num e fs pos).1 = true
    · rw [if_pos hs]
      exact ih _ _ (stepE_nodup dest num e fs pos h)
    · rw [if_neg hs]
      exact stepE_nodup dest num e fs pos h

theorem runEntries_openh (dest : List Nat) (num : Int) :
    ∀ (ges : List GEntry) (fs : FS) (pos : Nat),
    (runEntries dest num ges fs pos).1 = true →
    (runEntries dest num ges fs pos).2.1.openh = fs.openh := by
  intro ges
  induction ges with
  | nil => intro fs pos _; rw [runEntries_nil]
  | cons e rest ih =>
    intro fs pos h
    rw [runEntries_cons] at h ⊢
    by_cases hs : (stepE dest num e fs pos).1 = true
    · rw [if_pos hs] at h ⊢
      rcases stepE_success_cases dest num e fs pos hs with
        ⟨sb, nl, nm, fs1, rfl, hc⟩ | ⟨tg, sb, nl, nm, pl, fs1, rfl, hc, hw⟩
      · rw [stepE_gdir_success dest num sb nl nm fs pos fs1 hc] at h ⊢
        rw [ih _ _ h, (create_directory_state fs _ fs1 hc).2.2.1]
      · rw [stepE_gfile_success dest num tg sb nl nm pl fs pos fs1 hc hw] at h ⊢
        rw [ih _ _ h]
        exact (create_directory_state fs _ fs1 hc).2.2.1
    · rw [if_neg hs] at h
      simp at h

/-- Idempotence engine: if running the entries from `fs` succeeded with final
state `g` and events `ev`, then running them again from any state `h` that
agrees with `g` on directories, open handles and file keys, and on the
contents of every file the entries do not write, reproduces `(true, g, ev)`
exactly. -/
theorem runEntries_idem (dest : List Nat) (num : Int) :
    ∀ (ges : List GEntry) (fs g h : FS) (pos : Nat) (ev : List Event),
    runEntries dest num ges fs pos = (true, g, ev) →
    (keysOf g.files).Nodup →
    h.dirs = g.dirs → keysOf h.files = keysOf g.files → h.openh = g.openh →
    (∀ q, q ∉ writePaths dest ges → lookupF h.files q = lookupF g.files q) →
    runEntries dest num ges h pos = (true, g, ev) := by
  intro ges
  induction ges with
  | nil =>
    intro fs g h pos ev hrun hnd hdirs hkeys hopen hlook
    rw [runEntries_nil] at hrun
    simp only [Prod.mk.injEq, true_and] at hrun
    obtain ⟨hfsg, hev⟩ := hrun
    have hfiles : h.files = g.files :=
      lookupF_ext h.files g.files hkeys hnd
        (fun q => hlook q (by unfold writePaths; simp))
    have hfg : h = g := by
      calc h = ⟨h.dirs, h.files, h.openh⟩ := rfl
        _ = ⟨g.dirs, g.files, g.openh⟩ := by rw [hdirs, hfiles, hopen]
        _ = g := rfl
    rw [runEntries_nil, hfg, ← hev]
  | cons e rest ih =>
    intro fs g h pos ev hrun hnd hdirs hkeys hopen hlook
    rw [runEntries_cons] at hrun
    by_cases hs : (stepE dest num e fs pos).1 = true
    · rw [if_pos hs] at hrun
      rcases stepE_success_cases dest num e fs pos hs with
        ⟨sb, nl, nm, fs1, rfl, hc⟩ | ⟨tg, sb, nl, nm, pl, fs1, rfl, hc, hw⟩
      · -- directory entry
        rw [stepE_gdir_success dest num sb nl nm fs pos fs1 hc] at hrun
        simp only [Prod.mk.injEq] at hrun
        obtain ⟨hb, hg, hev⟩ := hrun
        have hrest : runEntries dest num rest fs1 (pos + 1) =
            (true, g, (runEntries dest num rest fs1 (pos + 1)).2.2) := by
          rw [← hb, ← hg]
        have hsubg : ∀ q ∈ fs1.dirs, q ∈ g.dirs := by
          intro q hq
          have hh := runEntries_dirs_mono dest num rest fs1 (pos + 1) q hq
          rw [hrest] at hh
          exact hh
        have hcg : create_directory h (entryPath dest nm) = (some h, []) :=
          create_directory_again fs (entryPath dest nm) fs1 hc h
            (fun q hq => hdirs ▸ hsubg q hq)
        have hlook' : ∀ q, q ∉ writePaths dest rest →
            lookupF h.files q = lookupF g.files q := by
          intro q hq
          exact hlook q (by unfold writePaths; exact hq)
        have hihr := ih fs1 g h (pos + 1) _ hrest hnd hdirs hkeys hopen hlook'
        rw [runEntries_cons,
          stepE_gdir_success dest num sb nl nm h pos h (by rw [hcg]),
          if_pos rfl, hihr]
        simp only [Prod.mk.injEq, true_and]
        exact hev
      · -- file entry
        rw [stepE_gfile_success dest num tg sb nl nm pl fs pos fs1 hc hw] at hrun
        simp only [Prod.mk.injEq] at hrun
        obtain ⟨hb, hg, hev⟩ := hrun
        have hfopen1 : fopenOk fs1 (fileKey dest nm) :=
          write_file_success_fopen _ _ _ _ hw
        have hfs2 : ({ fs1 with files := setFile fs1.files (fileKey dest nm) pl } : FS).dirs
            = fs1.dirs := rfl
        have hrest : runEntries dest num rest
            { fs1 with files := setFile fs1.files (fileKey dest nm) pl } (pos + 1) =
            (true, g, (runEntries dest num rest
              { fs1 with files := setFile fs1.files (fileKey dest nm) pl } (pos + 1)).2.2) := by
          rw [← hb, ← hg]
        have hsubg : ∀ q ∈ fs1.dirs, q ∈ g.dirs := by
          intro q hq
          have hh := runEntries_dirs_mono dest num rest
            { fs1 with files := setFile fs1.files (fileKey dest nm) pl } (pos + 1) q hq
          rw [hrest] at hh
          exact hh
        have hkeyg : fileKey dest nm ∈ keysOf g.files := by
          have hh := runEntries_keys_mono dest num rest
            { fs1 with files := setFile fs1.files (fileKey dest nm) pl } (pos + 1)
            (fileKey dest nm) (mem_keysOf_setFile_self _ _ _)
          rw [hrest] at hh
          exact hh
        have hkeynd : fileKey dest nm ∉ g.dirs := by
          have hh := runEntries_nodir dest num rest
            { fs1 with files := setFile fs1.files (fileKey dest nm) pl } (pos + 1)
            (fileKey dest nm) (mem_keysOf_setFile_self _ _ _) hfopen1.1
          rw [hrest] at hh
          exact hh
        have hfopenh : fopenOk h (fileKey dest nm) := by
          constructor
          · rw [hdirs]; exact hkeynd
          · rcases hfopen1.2 with hp | hp
            · exact Or.inl hp
            · exact Or.inr (by rw [hdirs]; exact hsubg _ hp)
        have hcg : create_directory h (get_directory (entryPath dest nm)) = (some h, []) :=
          create_directory_again fs (get_directory (entryPath dest nm)) fs1 hc h
            (fun q hq => hdirs ▸ hsubg q hq)
        have hwh : (write_file (entryPath dest nm) pl pl.length h).1 = true := by
          rw [write_file_exact (entryPath dest nm) pl h hfopenh]
        have hkeyh : fileKey dest nm ∈ keysOf h.files := by
          rw [hkeys]; exact hkeyg
        have hlookg : lookupF g.files (fileKey dest nm) = some pl ∨
            fileKey dest nm ∈ writePaths dest rest := by
          by_cases hmem : fileKey dest nm ∈ writePaths dest rest
          · exact Or.inr hmem
          · left
            have hh := runEntries_lookup_ne dest num rest
              { fs1 with files := setFile fs1.files (fileKey dest nm) pl } (pos + 1)
              (fileKey dest nm) hmem
            rw [hrest] at hh
            rw [hh]
            exact lookupF_setFile_self _ _ _
        have hihr := ih { fs1 with files := setFile fs1.files (fileKey dest nm) pl } g
          { h with files := setFile h.files (fileKey dest nm) pl } (pos + 1) _ hrest hnd
          hdirs
          (by rw [keysOf_setFile_mem h.files _ pl hkeyh]; exact hkeys)
          hopen
          (by
            intro q hq
            by_cases hqk : q = fileKey dest nm
            · subst hqk
              rw [lookupF_setFile_self]
              rcases hlookg with hh | hh
              · exact hh.symm
              · exact absurd hh hq
            · rw [lookupF_setFile_ne _ _ _ _ hqk]
              exact hlook q (by
                unfold writePaths
                simp only [List.mem_cons]
                push_neg
                exact ⟨hqk, hq⟩))
        rw [runEntries_cons,
          stepE_gfile_success dest num tg sb nl nm pl h pos h (by rw [hcg]) hwh,
          if_pos rfl, hihr]
        simp only [Prod.mk.injEq, true_and]
        exact hev
    · rw [if_neg hs] at hrun
      simp at hrun

/-! ### Event counting -/

theorem countErr_append (a b : List Event) : countErr (a ++ b) = countErr a + countErr b := by
  simp [countErr, List.filter_append]

theorem countDisp_append (a b : List Event) : countDisp (a ++ b) = countDisp a + countDisp b := by
  simp [countDisp, List.filter_append]

theorem create_directory_none (fs : FS) (p : List Nat)
    (h : (create_directory fs p).1 = none) :
    (create_directory fs p).2 = [Event.error] := by
  unfold create_directory at h ⊢
  by_cases h1 : p = [] ∨ (p.head? = some 46 ∧ (p.tail.head? = none ∨ p.tail.head? = some 46))
  · rw [if_pos h1] at h
    exact absurd h (by simp)
  · rw [if_neg h1] at h ⊢
    dsimp only at h ⊢
    by_cases h2 : stripDotSlash p ∈ fs.dirs
    · rw [if_pos h2] at h
      exact absurd h (by simp)
    · rw [if_neg h2] at h ⊢
      by_cases h3 : mkdirOk fs (stripDotSlash p)
      · rw [if_pos h3] at h
        exact absurd h (by simp)
      · rw [if_neg h3]

/-- Events of `write_file`: a `new_file` always, an `error` exactly when it
fails. -/
theorem write_file_events (f rem : List Nat) (len : Int) (fs : FS) :
    ((write_file f rem len fs).1 = true ∧
      (write_file f rem len fs).2.2.1 = [Event.new_file (slashconv (stripDotSlash f))]) ∨
    ((write_file f rem len fs).1 = false ∧
      (write_file f rem len fs).2.2.1 =
        [Event.new_file (slashconv (stripDotSlash f)), Event.error]) := by
  unfold write_file
  dsimp only
  split
  · split
    · left; exact ⟨rfl, rfl⟩
    · right; exact ⟨rfl, rfl⟩
  · right; exact ⟨rfl, rfl⟩

/-- A `write_file` whose stream is shorter than `len` fails with exactly a
`new_file` and an `error` event. -/
theorem write_file_short_any (f rem : List Nat) (len : Int) (fs : FS)
    (h : rem.length < len.toNat) :
    (write_file f rem len fs).1 = false ∧
    (write_file f rem len fs).2.2.1 =
      [Event.new_file (slashconv (stripDotSlash f)), Event.error] := by
  unfold write_file
  dsimp only
  split
  · rw [writeLoop_short len.toNat rem [] h]
    dsimp only
    rw [if_neg (by simp)]
    exact ⟨rfl, rfl⟩
  · exact ⟨rfl, rfl⟩

theorem countErr_nil : countErr [] = 0 := rfl

theorem countErr_status (a : Nat) (b : Int) (l : List Event) :
    countErr (Event.status a b :: l) = countErr l := rfl

theorem countErr_message (l : List Event) :
    countErr (Event.message :: l) = countErr l := rfl

theorem countErr_ndir (p : List Nat) (l : List Event) :
    countErr (Event.new_directory p :: l) = countErr l := rfl

theorem countErr_nfile (p : List Nat) (l : List Event) :
    countErr (Event.new_file p :: l) = countErr l := rfl

theorem countErr_error (l : List Event) :
    countErr (Event.error :: l) = countErr l + 1 := by
  simp [countErr, isErr, List.filter_cons]

theorem countDisp_nil : countDisp [] = 0 := rfl

theorem countDisp_status (a : Nat) (b : Int) (l : List Event) :
    countDisp (Event.status a b :: l) = countDisp l := rfl

theorem countDisp_message (l : List Event) :
    countDisp (Event.message :: l) = countDisp l := rfl

theorem countDisp_error (l : List Event) :
    countDisp (Event.error :: l) = countDisp l := rfl

theorem countDisp_ndir (p : List Nat) (l : List Event) :
    countDisp (Event.new_directory p :: l) = countDisp l + 1 := by
  simp [countDisp, isDisp, List.filter_cons]

theorem countDisp_nfile (p : List Nat) (l : List Event) :
    countDisp (Event.new_file p :: l) = countDisp l + 1 := by
  simp [countDisp, isDisp, List.filter_cons]

/-- Every error aborts the loop at once, so a run of the entry loop reports
at most one error, and none when it succeeds. -/
theorem parseLoop_err_bound (dest : List Nat) (num : Int) :
    ∀ (n : Nat) (rem : List Nat), rem.length ≤ n → ∀ (fs : FS) (pos : Nat),
      countErr (parseLoop dest num rem fs pos).2.2 ≤ 1 ∧
      ((parseLoop dest num rem fs pos).1 = true →
        countErr (parseLoop dest num rem fs pos).2.2 = 0) := by
  intro n
  induction n with
  | zero =>
    intro rem hlen fs pos
    rw [parseLoop_short dest num rem fs pos (by omega)]
    exact ⟨by simp only [List.append_assoc, List.cons_append, List.nil_append, countErr_append, countErr_status, countErr_message, countErr_ndir, countErr_nfile, countErr_error, countErr_nil]; omega, by simp⟩
  | succ n ih =>
    intro rem hlen fs pos
    by_cases h3 : rem.length < 3
    · rw [parseLoop_short dest num rem fs pos h3]
      exact ⟨by simp only [List.append_assoc, List.cons_append, List.nil_append, countErr_append, countErr_status, countErr_message, countErr_ndir, countErr_nfile, countErr_error, countErr_nil]; omega, by simp⟩
    by_cases hEnd : rem.take 3 = [69, 78, 68]
    · rw [parseLoop_eq]
      unfold parseStep
      rw [if_neg h3, if_pos hEnd]
      exact ⟨by simp only [List.append_assoc, List.cons_append, List.nil_append, countErr_append, countErr_status, countErr_message, countErr_ndir, countErr_nfile, countErr_error, countErr_nil]; omega, fun _ => by simp only [List.append_assoc, List.cons_append, List.nil_append, countErr_append, countErr_status, countErr_message, countErr_ndir, countErr_nfile, countErr_error, countErr_nil]⟩
    rw [parseLoop_eq]
    unfold parseStep
    rw [if_neg h3, if_neg hEnd]
    by_cases h4 : (rem.drop 3).length < 4
    · rw [if_pos h4]
      exact ⟨by simp only [List.append_assoc, List.cons_append, List.nil_append, countErr_append, countErr_status, countErr_message, countErr_ndir, countErr_nfile, countErr_error, countErr_nil]; omega, by simp⟩
    rw [if_neg h4]
    dsimp only
    have hL7 : rem.length ≥ 7 := by
      simp only [List.length_drop] at h4; omega
    have hr4 : ∀ nl : Nat, ((((rem.drop 3).drop 4).drop 1).drop nl).length ≤ n := by
      intro nl
      simp only [List.length_drop]
      omega
    by_cases hDir : rem.take 3 = [68, 73, 82]
    · rw [if_pos hDir]
      rcases hc : (create_directory fs
          (concatPaths dest (stripDotSlash ((((rem.drop 3).drop 4).drop 1).take
            ((((rem.drop 3).drop 4).head?).getD 0))))).1 with _ | fs1
      · simp only [hc]
        rw [create_directory_none _ _ hc]
        refine ⟨?_, by simp⟩
        simp only [List.append_assoc, List.cons_append, List.nil_append, countErr_append, countErr_status, countErr_message, countErr_ndir, countErr_nfile, countErr_error, countErr_nil]
        omega
      · simp only [hc]
        rw [(create_directory_state _ _ _ hc).1]
        obtain ⟨ihb, ihz⟩ := ih ((((rem.drop 3).drop 4).drop 1).drop
          ((((rem.drop 3).drop 4).head?).getD 0)) (hr4 _) fs1 (pos + 1)
        constructor
        · simp only [List.append_assoc, List.cons_append, List.nil_append, countErr_append, countErr_status, countErr_message, countErr_ndir, countErr_nfile, countErr_error, countErr_nil]
          omega
        · intro ht
          simp only [List.append_assoc, List.cons_append, List.nil_append, countErr_append, countErr_status, countErr_message, countErr_ndir, countErr_nfile, countErr_error, countErr_nil]
          exact ihz ht
    · rw [if_neg hDir]
      rcases hc : (create_directory fs
          (get_directory (concatPaths dest (stripDotSlash ((((rem.drop 3).drop 4).drop 1).take
            ((((rem.drop 3).drop 4).head?).getD 0)))))).1 with _ | fs1
      · simp only [hc]
        rw [create_directory_none _ _ hc]
        refine ⟨?_, by simp⟩
        simp only [List.append_assoc, List.cons_append, List.nil_append, countErr_append, countErr_status, countErr_message, countErr_ndir, countErr_nfile, countErr_error, countErr_nil]
        omega
      · simp only [hc]
        rw [(create_directory_state _ _ _ hc).1]
        rcases write_file_events (concatPaths dest
            (stripDotSlash ((((rem.drop 3).drop 4).drop 1).take
              ((((rem.drop 3).drop 4).head?).getD 0))))
            ((((rem.drop 3).drop 4).drop 1).drop ((((rem.drop 3).drop 4).head?).getD 0))
            (sle4 ((rem.drop 3).take 4)) fs1 with ⟨hw1, hwe⟩ | ⟨hw1, hwe⟩
        · rw [if_pos hw1, hwe]
          obtain ⟨ihb, ihz⟩ := ih ((write_file (concatPaths dest
              (stripDotSlash ((((rem.drop 3).drop 4).drop 1).take
                ((((rem.drop 3).drop 4).head?).getD 0))))
              ((((rem.drop 3).drop 4).drop 1).drop ((((rem.drop 3).drop 4).head?).getD 0))
              (sle4 ((rem.drop 3).take 4)) fs1).2.2.2)
            (le_trans (write_file_rem_length _ _ _ _) (hr4 _))
            ((write_file (concatPaths dest
              (stripDotSlash ((((rem.drop 3).drop 4).drop 1).take
                ((((rem.drop 3).drop 4).head?).getD 0))))
              ((((rem.drop 3).drop 4).drop 1).drop ((((rem.drop 3).drop 4).head?).getD 0))
              (sle4 ((rem.drop 3).take 4)) fs1).2.1) (pos + 1)
          constructor
          · simp only [List.append_assoc, List.cons_append, List.nil_append, countErr_append, countErr_status, countErr_message, countErr_ndir, countErr_nfile, countErr_error, countErr_nil]
            omega
          · intro ht
            simp only [List.append_assoc, List.cons_append, List.nil_append, countErr_append, countErr_status, countErr_message, countErr_ndir, countErr_nfile, countErr_error, countErr_nil]
            exact ihz ht
        · rw [if_neg (by simp only [hw1]; decide), hwe]
          refine ⟨?_, by simp⟩
          simp only [List.append_assoc, List.cons_append, List.nil_append, countErr_append, countErr_status, countErr_message, countErr_ndir, countErr_nfile, countErr_error, countErr_nil]
          omega

/-- A successful run over `N` entries reports exactly the progress values
`pos+1, ..., pos+N` (with the constant total `num`), in order. -/
theorem runEntries_statuses (dest : List Nat) (num : Int) :
    ∀ (ges : List GEntry) (fs : FS) (pos : Nat),
    (runEntries dest num ges fs pos).1 = true →
    ((runEntries dest num ges fs pos).2.2).filter isStatus =
      (List.range ges.length).map (fun i => Event.status (pos + 1 + i) num) := by
  intro ges
  induction ges with
  | nil => intro fs pos _; rw [runEntries_nil]; rfl
  | cons e rest ih =>
    intro fs pos h
    have hrange : (List.range (rest.length + 1)).map (fun i => Event.status (pos + 1 + i) num)
        = Event.status (pos + 1) num ::
          (List.range rest.length).map (fun i => Event.status (pos + 1 + 1 + i) num) := by
      rw [List.range_succ_eq_map, List.map_cons, List.map_map, Nat.add_zero]
      congr 1
      refine List.map_congr_left ?_
      intro i _
      show Event.status (pos + 1 + (i + 1)) num = Event.status (pos + 1 + 1 + i) num
      congr 1
      omega
    rw [runEntries_cons] at h ⊢
    by_cases hs : (stepE dest num e fs pos).1 = true
    · rw [if_pos hs] at h ⊢
      rcases stepE_success_cases dest num e fs pos hs with
        ⟨sb, nl, nm, fs1, rfl, hc⟩ | ⟨tg, sb, nl, nm, pl, fs1, rfl, hc, hw⟩
      · rw [stepE_gdir_success dest num sb nl nm fs pos fs1 hc] at h ⊢
        have ht : (runEntries dest num rest fs1 (pos + 1)).1 = true := h
        show (([Event.status (pos + 1) num, Event.message,
            Event.new_directory (entryPath dest nm)] ++
            (runEntries dest num rest fs1 (pos + 1)).2.2).filter isStatus) = _
        rw [List.filter_append, ih fs1 (pos + 1) ht]
        simp only [List.length_cons, hrange]
        rfl
      · rw [stepE_gfile_success dest num tg sb nl nm pl fs pos fs1 hc hw] at h ⊢
        have ht : (runEntries dest num rest
            { fs1 with files := setFile fs1.files (fileKey dest nm) pl } (pos + 1)).1 =
            true := h
        show (([Event.status (pos + 1) num, Event.message,
            Event.new_file (fileKey dest nm)] ++
            (runEntries dest num rest
              { fs1 with files := setFile fs1.files (fileKey dest nm) pl } (pos + 1)).2.2).filter
            isStatus) = _
        rw [List.filter_append, ih _ (pos + 1) ht]
        simp only [List.length_cons, hrange]
        rfl
    · rw [if_neg hs] at h
      simp at h

/-! ### Truncated-entry analysis -/

/-- A stream holding a full non-`END` tag but fewer than 4 further bytes:
the size read is short and the loop returns failure silently. -/
theorem parseLoop_stub_short4 (dest : List Nat) (num : Int) (tg r1 : List Nat)
    (fs : FS) (pos : Nat) (htg : tg.length = 3) (hE : tg ≠ [69, 78, 68])
    (h4 : r1.length < 4) :
    parseLoop dest num (tg ++ r1) fs pos = (false, fs, []) := by
  rw [parseLoop_eq]
  unfold parseStep
  rw [if_neg (by simp [htg])]
  rw [List.take_left' htg, if_neg hE, List.drop_left' htg, if_pos h4]

/-- A stream holding a tag and a size field, after which the name-length
byte and name reads exhaust it (`r4 = []`): the entry is dispatched with the
truncated name and the next tag read fails; at most one dispatch, result is
failure. -/
theorem parseLoop_stub_nil (dest : List Nat) (num : Int) (tg sb r2 : List Nat)
    (fs : FS) (pos : Nat) (htg : tg.length = 3) (hE : tg ≠ [69, 78, 68])
    (hsb : sb.length = 4)
    (hr4 : (r2.drop 1).drop ((r2.head?).getD 0) = []) :
    (parseLoop dest num (tg ++ sb ++ r2) fs pos).1 = false ∧
    countDisp (parseLoop dest num (tg ++ sb ++ r2) fs pos).2.2 ≤ 1 := by
  rw [List.append_assoc, parseLoop_eq]
  unfold parseStep
  rw [if_neg (by simp [htg, hsb])]
  rw [List.take_left' htg, if_neg hE, List.drop_left' htg]
  rw [if_neg (by simp [hsb])]
  dsimp only
  rw [List.take_left' hsb, List.drop_left' hsb, hr4]
  by_cases hDir : tg = [68, 73, 82]
  · rw [if_pos hDir]
    rcases hc : (create_directory fs
        (concatPaths dest (stripDotSlash ((r2.drop 1).take ((r2.head?).getD 0))))).1
      with _ | fs1
    · simp only [hc]
      rw [create_directory_none _ _ hc]
      refine ⟨by trivial, ?_⟩
      simp only [List.append_assoc, List.cons_append, List.nil_append, countDisp_append,
        countDisp_status, countDisp_message, countDisp_ndir, countDisp_error, countDisp_nil]
      omega
    · simp only [hc]
      rw [(create_directory_state _ _ _ hc).1,
        parseLoop_short dest num [] fs1 (pos + 1) (by simp)]
      refine ⟨by trivial, ?_⟩
      simp only [List.append_assoc, List.cons_append, List.nil_append, countDisp_append,
        countDisp_status, countDisp_message, countDisp_ndir, countDisp_error, countDisp_nil]
      omega
  · rw [if_neg hDir]
    rcases hc : (create_directory fs
        (get_directory (concatPaths dest
          (stripDotSlash ((r2.drop 1).take ((r2.head?).getD 0)))))).1 with _ | fs1
    · simp only [hc]
      rw [create_directory_none _ _ hc]
      refine ⟨by trivial, ?_⟩
      simp only [List.append_assoc, List.cons_append, List.nil_append, countDisp_append,
        countDisp_status, countDisp_message, countDisp_error, countDisp_nil]
      omega
    · simp only [hc]
      rw [(create_directory_state _ _ _ hc).1]
      rcases write_file_events (concatPaths dest
          (stripDotSlash ((r2.drop 1).take ((r2.head?).getD 0)))) []
          (sle4 sb) fs1 with ⟨hw1, hwe⟩ | ⟨hw1, hwe⟩
      · rw [if_pos hw1]
        have hrem := (write_file_success _ _ _ _ hw1).2
        simp only [List.drop_nil] at hrem
        rw [hrem, parseLoop_short dest num [] _ (pos + 1) (by simp), hwe]
        refine ⟨by trivial, ?_⟩
        simp only [List.append_assoc, List.cons_append, List.nil_append, countDisp_append,
          countDisp_status, countDisp_message, countDisp_nfile, countDisp_error, countDisp_nil]
        omega
      · rw [if_neg (by simp only [hw1]; decide), hwe]
        refine ⟨by trivial, ?_⟩
        simp only [List.append_assoc, List.cons_append, List.nil_append, countDisp_append,
          countDisp_status, countDisp_message, countDisp_nfile, countDisp_error, countDisp_nil]
        omega

/-- A stream cut inside a file entry's payload: the copy loop hits a short
read and the loop returns failure after the single `new_file` dispatch. -/
theorem parseLoop_stub_payload (dest : List Nat) (num : Int) (tg sb r2 : List Nat)
    (fs : FS) (pos : Nat) (htg : tg.length = 3) (hE : tg ≠ [69, 78, 68])
    (hD : tg ≠ [68, 73, 82]) (hsb : sb.length = 4)
    (hr4 : ((r2.drop 1).drop ((r2.head?).getD 0)).length < (sle4 sb).toNat) :
    (parseLoop dest num (tg ++ sb ++ r2) fs pos).1 = false ∧
    countDisp (parseLoop dest num (tg ++ sb ++ r2) fs pos).2.2 ≤ 1 := by
  rw [List.append_assoc, parseLoop_eq]
  unfold parseStep
  rw [if_neg (by simp [htg, hsb])]
  rw [List.take_left' htg, if_neg hE, List.drop_left' htg]
  rw [if_neg (by simp [hsb])]
  dsimp only
  rw [List.take_left' hsb, List.drop_left' hsb]
  rw [if_neg hD]
  rcases hc : (create_directory fs
      (get_directory (concatPaths dest
        (stripDotSlash ((r2.drop 1).take ((r2.head?).getD 0)))))).1 with _ | fs1
  · simp only [hc]
    rw [create_directory_none _ _ hc]
    refine ⟨by trivial, ?_⟩
    simp only [List.append_assoc, List.cons_append, List.nil_append, countDisp_append,
      countDisp_status, countDisp_message, countDisp_error, countDisp_nil]
    omega
  · simp only [hc]
    rw [(create_directory_state _ _ _ hc).1]
    obtain ⟨hw1, hwe⟩ := write_file_short_any (concatPaths dest
        (stripDotSlash ((r2.drop 1).take ((r2.head?).getD 0))))
        ((r2.drop 1).drop ((r2.head?).getD 0)) (sle4 sb) fs1 hr4
    rw [if_neg (by simp only [hw1]; decide), hwe]
    refine ⟨by trivial, ?_⟩
    simp only [List.append_assoc, List.cons_append, List.nil_append, countDisp_append,
      countDisp_status, countDisp_message, countDisp_nfile, countDisp_error, countDisp_nil]
    omega

/-- The entry loop on a strict prefix of one well-formed entry's wire form
fails, dispatching at most one (possibly name-truncated) entry. -/
theorem parseLoop_entry_trunc (dest : List Nat) (num : Int) (e : GEntry) (he : WFG e) :
    ∀ (s : Nat) (fs : FS) (pos : Nat), s < (gencodeEntry e).length →
      (parseLoop dest num ((gencodeEntry e).take s) fs pos).1 = false ∧
      countDisp (parseLoop dest num ((gencodeEntry e).take s) fs pos).2.2 ≤ 1 := by
  intro s fs pos hs
  by_cases h3 : s < 3
  · rw [parseLoop_short dest num _ fs pos (by rw [List.length_take]; omega)]
    exact ⟨by trivial, by show countDisp [Event.error] ≤ 1; decide⟩
  cases e with
  | gdir sb nl nm =>
    obtain ⟨hsb, hnm⟩ := he
    have hE : gencodeEntry (GEntry.gdir sb nl nm) = [68, 73, 82] ++ (sb ++ (nl :: nm)) := by
      simp [gencodeEntry]
    have hLen : (gencodeEntry (GEntry.gdir sb nl nm)).length = 8 + nl := by
      rw [hE]
      simp [hsb, hnm]
      omega
    rw [hLen] at hs
    rw [hE]
    have htg3 : ([68, 73, 82] : List Nat).length = 3 := rfl
    have htk : (([68, 73, 82] : List Nat) ++ (sb ++ (nl :: nm))).take s
        = [68, 73, 82] ++ ((sb ++ (nl :: nm)).take (s - 3)) := by
      rw [List.take_append_eq_append_take, List.take_of_length_le (by rw [htg3]; omega), htg3]
    rw [htk]
    by_cases h4 : s - 3 < 4
    · rw [parseLoop_stub_short4 dest num [68, 73, 82] _ fs pos rfl (by decide)
        (by rw [List.length_take]; omega)]
      exact ⟨by trivial, by show countDisp ([] : List Event) ≤ 1; decide⟩
    · have htk2 : (sb ++ (nl :: nm)).take (s - 3) = sb ++ ((nl :: nm).take (s - 7)) := by
        rw [List.take_append_eq_append_take, List.take_of_length_le (by omega : sb.length ≤ s - 3)]
        rw [hsb, Nat.sub_sub, show (3 + 4 : Nat) = 7 from rfl]
      rw [htk2, ← List.append_assoc]
      have hr4 : (((nl :: nm).take (s - 7)).drop 1).drop
          ((((nl :: nm).take (s - 7)).head?).getD 0) = [] := by
        by_cases h7 : s - 7 = 0
        · rw [h7]
          rfl
        · obtain ⟨t, ht⟩ : ∃ t, s - 7 = t + 1 := ⟨s - 8, by omega⟩
          rw [ht, List.take_succ_cons]
          show (nm.take t).drop nl = []
          apply List.drop_eq_nil_of_le
          rw [List.length_take]
          omega
      exact parseLoop_stub_nil dest num [68, 73, 82] sb _ fs pos rfl (by decide) hsb hr4
  | gfile tg sb nl nm pl =>
    obtain ⟨htg3, htgE, htgD, hsb, hnm, hpl⟩ := he
    have hE : gencodeEntry (GEntry.gfile tg sb nl nm pl) = tg ++ (sb ++ (nl :: (nm ++ pl))) := by
      simp [gencodeEntry]
    have hLen : (gencodeEntry (GEntry.gfile tg sb nl nm pl)).length = 8 + nl + pl.length := by
      rw [hE]
      simp [htg3, hsb, hnm]
      omega
    rw [hLen] at hs
    rw [hE]
    have htk : (tg ++ (sb ++ (nl :: (nm ++ pl)))).take s
        = tg ++ ((sb ++ (nl :: (nm ++ pl))).take (s - 3)) := by
      rw [List.take_append_eq_append_take, List.take_of_length_le (by rw [htg3]; omega), htg3]
    rw [htk]
    by_cases h4 : s - 3 < 4
    · rw [parseLoop_stub_short4 dest num tg _ fs pos htg3 htgE
        (by rw [List.length_take]; omega)]
      exact ⟨by trivial, by show countDisp ([] : List Event) ≤ 1; decide⟩
    · have htk2 : (sb ++ (nl :: (nm ++ pl))).take (s - 3)
          = sb ++ ((nl :: (nm ++ pl)).take (s - 7)) := by
        rw [List.take_append_eq_append_take, List.take_of_length_le (by omega : sb.length ≤ s - 3)]
        rw [hsb, Nat.sub_sub, show (3 + 4 : Nat) = 7 from rfl]
      rw [htk2, ← List.append_assoc]
      by_cases h8 : s - 8 ≤ nl
      · have hr4 : (((nl :: (nm ++ pl)).take (s - 7)).drop 1).drop
            ((((nl :: (nm ++ pl)).take (s - 7)).head?).getD 0) = [] := by
          by_cases h7 : s - 7 = 0
          · rw [h7]
            rfl
          · obtain ⟨t, ht⟩ : ∃ t, s - 7 = t + 1 := ⟨s - 8, by omega⟩
            rw [ht, List.take_succ_cons]
            show ((nm ++ pl).take t).drop nl = []
            apply List.drop_eq_nil_of_le
            rw [List.length_take]
            omega
        exact parseLoop_stub_nil dest num tg sb _ fs pos htg3 htgE hsb hr4
      · have ht : s - 7 = (s - 8) + 1 := by omega
        have hr4 : ((((nl :: (nm ++ pl)).take (s - 7)).drop 1).drop
            ((((nl :: (nm ++ pl)).take (s - 7)).head?).getD 0)).length < (sle4 sb).toNat := by
          rw [ht, List.take_succ_cons]
          show (((nm ++ pl).take (s - 8)).drop nl).length < (sle4 sb).toNat
          rw [List.length_drop, List.length_take, ← hpl, List.length_append]
          have hnm' : nm.length = nl := hnm
          omega
        exact parseLoop_stub_payload dest num tg sb _ fs pos htg3 htgE htgD hsb hr4

/-- Any single step dispatches at most one entry to the materializer. -/
theorem stepE_disp_le (dest : List Nat) (num : Int) (e : GEntry) (fs : FS) (pos : Nat) :
    countDisp (stepE dest num e fs pos).2.2 ≤ 1 := by
  unfold stepE
  cases e with
  | gdir sb nl nm =>
    rcases hc : (create_directory fs (entryPath dest nm)).1 with _ | fs1 <;>
      simp only [hc]
    · rw [create_directory_none _ _ hc]
      simp only [List.append_assoc, List.cons_append, List.nil_append, countDisp_append,
        countDisp_status, countDisp_message, countDisp_ndir, countDisp_error, countDisp_nil]
      omega
    · rw [(create_directory_state _ _ _ hc).1]
      simp only [List.append_assoc, List.cons_append, List.nil_append, countDisp_append,
        countDisp_status, countDisp_message, countDisp_ndir, countDisp_nil]
      omega
  | gfile tg sb nl nm pl =>
    rcases hc : (create_directory fs (get_directory (entryPath dest nm))).1 with _ | fs1 <;>
      simp only [hc]
    · rw [create_directory_none _ _ hc]
      simp only [List.append_assoc, List.cons_append, List.nil_append, countDisp_append,
        countDisp_status, countDisp_message, countDisp_error, countDisp_nil]
      omega
    · rw [(create_directory_state _ _ _ hc).1]
      rcases write_file_events (entryPath dest nm) pl pl.length fs1 with ⟨_, hwe⟩ | ⟨_, hwe⟩ <;>
        rw [hwe] <;>
        simp only [List.append_assoc, List.cons_append, List.nil_append, countDisp_append,
          countDisp_status, countDisp_message, countDisp_nfile, countDisp_error,
          countDisp_nil] <;>
        omega

/-- The entry loop on a strict prefix of an encoded archive body fails, and
dispatches no entry beyond those whose wire form begins before the cut. -/
theorem parseLoop_take_fails (dest : List Nat) (num : Int) :
    ∀ (ges : List GEntry), (∀ e ∈ ges, WFG e) →
    ∀ (s : Nat) (fs : FS) (pos : Nat), s < (gencodeList ges ++ [69, 78, 68]).length →
      (parseLoop dest num ((gencodeList ges ++ [69, 78, 68]).take s) fs pos).1 = false ∧
      countDisp (parseLoop dest num ((gencodeList ges ++ [69, 78, 68]).take s) fs pos).2.2 ≤
        startedEntries ges s := by
  intro ges
  induction ges with
  | nil =>
    intro _ s fs pos hlen
    simp only [gencodeList, List.map_nil, List.flatten_nil, List.nil_append] at hlen ⊢
    rw [parseLoop_short dest num _ fs pos (by rw [List.length_take]; simp at hlen ⊢; omega)]
    exact ⟨by trivial, Nat.zero_le _⟩
  | cons e rest ih =>
    intro hwf s fs pos hlen
    by_cases hs0 : s = 0
    · subst hs0
      rw [List.take_zero, parseLoop_short dest num [] fs pos (by simp)]
      exact ⟨by trivial, Nat.zero_le _⟩
    · have hsplit : gencodeList (e :: rest) ++ [69, 78, 68]
          = gencodeEntry e ++ (gencodeList rest ++ [69, 78, 68]) := by
        simp [gencodeList]
      rw [hsplit] at hlen ⊢
      have hE8 : 1 ≤ (gencodeEntry e).length := by
        cases e
        all_goals simp only [gencodeEntry, List.length_append, List.length_cons]
        all_goals omega
      have hse : startedEntries (e :: rest) s
          = 1 + startedEntries rest (s - (gencodeEntry e).length) := by
        obtain ⟨b, rfl⟩ : ∃ b, s = b + 1 := ⟨s - 1, by omega⟩
        rfl
      by_cases hL : (gencodeEntry e).length ≤ s
      · have htk : (gencodeEntry e ++ (gencodeList rest ++ [69, 78, 68])).take s
            = gencodeEntry e ++
              ((gencodeList rest ++ [69, 78, 68]).take (s - (gencodeEntry e).length)) := by
          rw [List.take_append_eq_append_take, List.take_of_length_le hL]
        rw [htk, parseLoop_gencode_cons dest num e (hwf e (by simp)) _ fs pos]
        have hlen' : s - (gencodeEntry e).length < (gencodeList rest ++ [69, 78, 68]).length := by
          rw [List.length_append] at hlen
          omega
        by_cases hst : (stepE dest num e fs pos).1 = true
        · rw [if_pos hst]
          obtain ⟨ihf, ihd⟩ := ih (fun e' he' => hwf e' (by simp [he']))
            (s - (gencodeEntry e).length) (stepE dest num e fs pos).2.1 (pos + 1) hlen'
          refine ⟨ihf, ?_⟩
          show countDisp ((stepE dest num e fs pos).2.2 ++ _) ≤ _
          rw [countDisp_append, hse]
          have hds := stepE_disp_le dest num e fs pos
          omega
        · rw [if_neg hst]
          refine ⟨by trivial, ?_⟩
          show countDisp (stepE dest num e fs pos).2.2 ≤ _
          rw [hse]
          have hds := stepE_disp_le dest num e fs pos
          omega
      · have htk : (gencodeEntry e ++ (gencodeList rest ++ [69, 78, 68])).take s
            = (gencodeEntry e).take s := by
          rw [List.take_append_eq_append_take,
            show s - (gencodeEntry e).length = 0 from by omega, List.take_zero,
            List.append_nil]
        rw [htk]
        obtain ⟨hf, hd⟩ := parseLoop_entry_trunc dest num e (hwf e (by simp)) s fs pos (by omega)
        refine ⟨hf, ?_⟩
        rw [hse]
        omega

/-! ### Top-level glue -/

theorem unpack_archive_none (data dest : List Nat) (fs : FS)
    (hc : (create_directory fs dest).1 = none) :
    unpack_archive data dest fs = (false, fs, [Event.message] ++ (create_directory fs dest).2) := by
  unfold unpack_archive
  simp only [hc]

theorem unpack_archive_some_short (data dest : List Nat) (fs fs1 : FS)
    (hc : (create_directory fs dest).1 = some fs1) (hlen : data.length < 4) :
    unpack_archive data dest fs =
      (false, fs1, [Event.message] ++ (create_directory fs dest).2) := by
  unfold unpack_archive
  simp only [hc]
  rw [if_pos hlen]

theorem unpack_archive_some (data dest : List Nat) (fs fs1 : FS)
    (hc : (create_directory fs dest).1 = some fs1) (hlen : ¬ data.length < 4) :
    unpack_archive data dest fs =
      ((parseLoop dest (sle4 (data.take 4)) (data.drop 4) fs1 0).1,
       (parseLoop dest (sle4 (data.take 4)) (data.drop 4) fs1 0).2.1,
       [Event.message] ++ (create_directory fs dest).2 ++
         [Event.status 0 (sle4 (data.take 4)), Event.message] ++
         (parseLoop dest (sle4 (data.take 4)) (data.drop 4) fs1 0).2.2 ++
         (if (parseLoop dest (sle4 (data.take 4)) (data.drop 4) fs1 0).1 then [Event.message]
          else [])) := by
  unfold unpack_archive
  simp only [hc]
  rw [if_neg hlen]

/-! ### Claims -/

/-- Claim C1: for the archive whose decompressed bytes are `01 00 00 00`,
then the entry `"DIR" 00 00 00 00 03 "sub"`, then `"END"`, `unpack_archive`
returns success, the destination (root `"dest"`, starting from an empty
filesystem) contains the single empty directory `sub`, and the Status Sink
receives a `new_directory` call for that path and a progress call `(1, 1)`. -/
theorem claim_C1 :
    unpack_archive
        ([1, 0, 0, 0] ++ [68, 73, 82] ++ [0, 0, 0, 0] ++ [3] ++ [115, 117, 98] ++ [69, 78, 68])
        [100, 101, 115, 116] ⟨[], [], []⟩ =
      (true,
       ⟨[[100, 101, 115, 116], [100, 101, 115, 116, 47, 115, 117, 98]], [], []⟩,
       [Event.message, Event.status 0 1, Event.message, Event.status 1 1, Event.message,
        Event.new_directory [100, 101, 115, 116, 47, 115, 117, 98], Event.message]) ∧
    Event.new_directory [100, 101, 115, 116, 47, 115, 117, 98] ∈
      [Event.message, Event.status 0 1, Event.message, Event.status 1 1, Event.message,
        Event.new_directory [100, 101, 115, 116, 47, 115, 117, 98], Event.message] ∧
    Event.status 1 1 ∈
      [Event.message, Event.status 0 1, Event.message, Event.status 1 1, Event.message,
        Event.new_directory [100, 101, 115, 116, 47, 115, 117, 98], Event.message] := by
  decide

/-- Claim C5: for every in-memory byte source and requested length, the
memory reader returns `min maxLen remaining` bytes copied from the cursor,
advances the cursor by that amount, and returns 0 once the cursor has
reached the end of the buffer. -/
theorem claim_C5 (r : Memread) (n : Nat) :
    (reader_memread r n).1.length = min n (r.data.length - r.pos) ∧
    (reader_memread r n).1 = (r.data.drop r.pos).take (min n (r.data.length - r.pos)) ∧
    (reader_memread r n).2.data = r.data ∧
    (reader_memread r n).2.pos = r.pos + min n (r.data.length - r.pos) ∧
    (r.data.length ≤ r.pos →
      (reader_memread r n).1.length = 0 ∧ (reader_memread r n).2.pos = r.pos) := by
  unfold reader_memread
  dsimp only
  by_cases h : r.data.length - r.pos < n
  · rw [if_pos h]
    rw [show min n (r.data.length - r.pos) = r.data.length - r.pos from by omega]
    refine ⟨?_, rfl, rfl, rfl, ?_⟩
    · rw [List.length_take, List.length_drop]
      omega
    · intro he
      refine ⟨?_, by omega⟩
      rw [List.length_take, List.length_drop]
      omega
  · rw [if_neg h]
    rw [show min n (r.data.length - r.pos) = n from by omega]
    refine ⟨?_, rfl, rfl, rfl, ?_⟩
    · rw [List.length_take, List.length_drop]
      omega
    · intro he
      refine ⟨?_, by omega⟩
      rw [List.length_take, List.length_drop]
      omega

/-- Witness for claim C5 at a concrete exhausted reader. -/
theorem claim_C5_witness :
    (reader_memread ⟨[7, 8], 2⟩ 3).1.length = min 3 (([7, 8] : List Nat).length - 2) ∧
    (reader_memread ⟨[7, 8], 2⟩ 3).1 =
      (([7, 8] : List Nat).drop 2).take (min 3 (([7, 8] : List Nat).length - 2)) ∧
    (reader_memread ⟨[7, 8], 2⟩ 3).2.data = [7, 8] ∧
    (reader_memread ⟨[7, 8], 2⟩ 3).2.pos = 2 + min 3 (([7, 8] : List Nat).length - 2) ∧
    (([7, 8] : List Nat).length ≤ 2 →
      (reader_memread ⟨[7, 8], 2⟩ 3).1.length = 0 ∧ (reader_memread ⟨[7, 8], 2⟩ 3).2.pos = 2) :=
  claim_C5 ⟨[7, 8], 2⟩ 3

/-- Counterexample to claim C6 as stated: on a POSIX platform the claim says
the path separators remain `/`, but the code converts every `/` to `\`
unconditionally: writing path `a/b` announces and opens `a\b`. -/
theorem claim_C6_counterexample :
    (write_file [97, 47, 98] [] 0 ⟨[], [], []⟩).2.2.1.head? =
      some (Event.new_file [97, 92, 98]) ∧
    ([97, 92, 98] : List Nat) ≠ [97, 47, 98] := by
  decide

/-- Claim C6 (amended): `write_file` replaces every `/` in the (stripped)
path by `\` unconditionally — there is no platform split in the source —
and announces/opens exactly that converted path, which contains no `/`. -/
theorem claim_C6_amended (f rem : List Nat) (len : Int) (fs : FS) :
    (write_file f rem len fs).2.2.1.head? =
      some (Event.new_file (slashconv (stripDotSlash f))) ∧
    (47 : Nat) ∉ slashconv (stripDotSlash f) := by
  constructor
  · unfold write_file
    dsimp only
    split
    · split <;> rfl
    · rfl
  · intro hmem
    unfold slashconv at hmem
    rw [List.mem_map] at hmem
    obtain ⟨b, _, hb⟩ := hmem
    by_cases hb47 : b = 47
    · rw [if_pos hb47] at hb
      exact absurd hb (by decide)
    · rw [if_neg hb47] at hb
      exact hb47 hb

/-- Counterexample to claim C7 as stated: the path `..x` is not null, empty,
`.` or `..`, yet `create_directory` returns success without checking
existence or attempting creation — here `..x` exists as a file, so any
`mkdir` attempt would have failed with an error. -/
theorem claim_C7_counterexample :
    create_directory ⟨[], [([46, 46, 120], [])], []⟩ [46, 46, 120] =
      (some ⟨[], [([46, 46, 120], [])], []⟩, []) ∧
    ([46, 46, 120] : List Nat) ≠ [46] ∧
    ([46, 46, 120] : List Nat) ≠ [46, 46] ∧
    ([46, 46, 120] : List Nat) ≠ [] := by
  decide

/-- Claim C7 (amended): `create_directory` returns success untouched on
every filesystem (no existence check, no creation attempt) precisely when
the path is empty or starts with `.` followed by end-of-string or a second
`.` (so `.`, `..`, and also any `..`-prefixed path such as `../x`). -/
theorem claim_C7_amended (p : List Nat) :
    (∀ fs : FS, create_directory fs p = (some fs, [])) ↔
      (p = [] ∨ (p.head? = some 46 ∧ (p.tail.head? = none ∨ p.tail.head? = some 46))) := by
  constructor
  · intro h
    by_contra hc
    have hx := h ⟨[], [(stripDotSlash p, [])], []⟩
    unfold create_directory at hx
    rw [if_neg hc] at hx
    dsimp only at hx
    rw [if_neg (by simp)] at hx
    rw [if_neg (by unfold mkdirOk; simp [keysOf])] at hx
    exact absurd hx (by simp)
  · intro h fs
    unfold create_directory
    rw [if_pos h]

/-- Claim C10: when the stream yields fewer than `len` bytes, `write_file`
reports the error (after the `new_file`), returns failure without closing
the output handle, and the bytes of the complete earlier chunks remain in
the destination file. -/
theorem claim_C10 (f rem : List Nat) (len : Nat) (fs : FS)
    (hf : fopenOk fs (slashconv (stripDotSlash f))) (hs : rem.length < len) :
    (write_file f rem len fs).1 = false ∧
    (write_file f rem len fs).2.2.1 =
      [Event.new_file (slashconv (stripDotSlash f)), Event.error] ∧
    (write_file f rem len fs).2.1.openh = slashconv (stripDotSlash f) :: fs.openh ∧
    lookupF (write_file f rem len fs).2.1.files (slashconv (stripDotSlash f)) =
      some (rem.take (4096 * (rem.length / 4096))) := by
  rw [write_file_short_state f rem len fs hf hs]
  exact ⟨rfl, rfl, rfl, lookupF_setFile_self _ _ _⟩

/-- Witness for claim C10 at a concrete short write. -/
theorem claim_C10_witness :
    (write_file [97] [1, 2, 3] 5 ⟨[], [], []⟩).1 = false ∧
    (write_file [97] [1, 2, 3] 5 ⟨[], [], []⟩).2.2.1 =
      [Event.new_file (slashconv (stripDotSlash [97])), Event.error] ∧
    (write_file [97] [1, 2, 3] 5 ⟨[], [], []⟩).2.1.openh =
      slashconv (stripDotSlash [97]) :: ([] : List (List Nat)) ∧
    lookupF (write_file [97] [1, 2, 3] 5 ⟨[], [], []⟩).2.1.files
        (slashconv (stripDotSlash [97])) =
      some (([1, 2, 3] : List Nat).take (4096 * (([1, 2, 3] : List Nat).length / 4096))) :=
  claim_C10 [97] [1, 2, 3] 5 ⟨[], [], []⟩ (by decide) (by decide)

/-- Counterexample to claim C2 as stated: the 8-byte stream
`01 00 00 00 'F' 'I' 'L' 05` is a strict prefix of a valid one-file archive,
yet on it `unpack_archive` returns failure with the error callback invoked
ZERO times (the short read of the 4-byte size field returns silently), not
exactly once. -/
theorem claim_C2_counterexample :
    ([1, 0, 0, 0] ++
        (gencodeList [GEntry.gfile [70, 73, 76] [5, 0, 0, 0] 1 [97] [9, 9, 9, 9, 9]] ++
          [69, 78, 68])).take 8 = [1, 0, 0, 0, 70, 73, 76, 5] ∧
    (unpack_archive
        ([1, 0, 0, 0] ++
          (gencodeList [GEntry.gfile [70, 73, 76] [5, 0, 0, 0] 1 [97] [9, 9, 9, 9, 9]] ++
            [69, 78, 68]))
        [100, 101, 115, 116] ⟨[], [], []⟩).1 = true ∧
    (unpack_archive [1, 0, 0, 0, 70, 73, 76, 5] [100, 101, 115, 116] ⟨[], [], []⟩).1 = false ∧
    countErr (unpack_archive [1, 0, 0, 0, 70, 73, 76, 5]
        [100, 101, 115, 116] ⟨[], [], []⟩).2.2 = 0 := by
  decide

/-- Claim C2 (amended): for every program-representable archive (length
below `2 ^ 31`, the source passes the buffer length as `int`) truncated
strictly before its expected end, `unpack_archive` returns a failure
indicator, the error callback is invoked AT MOST once (some truncation
points fail silently), and no entry whose wire form starts at or after the
truncation point is dispatched to the materializer.  Well-formedness `WFG`
admits entries whose 4-byte size field encodes a negative signed `int`:
their wire form carries no payload, matching the source's skipped copy
loop. -/
theorem claim_C2_amended (c1 c2 c3 c4 : Nat) (ges : List GEntry) (dest : List Nat)
    (fs fs1 : FS) (t : Nat)
    (hwf : ∀ e ∈ ges, WFG e)
    (hc : (create_directory fs dest).1 = some fs1)
    (h4 : 4 ≤ t)
    (_hrep : ([c1, c2, c3, c4] ++ (gencodeList ges ++ [69, 78, 68])).length < 2 ^ 31)
    (ht : t < ([c1, c2, c3, c4] ++ (gencodeList ges ++ [69, 78, 68])).length) :
    (unpack_archive (([c1, c2, c3, c4] ++ (gencodeList ges ++ [69, 78, 68])).take t)
        dest fs).1 = false ∧
    countErr (unpack_archive (([c1, c2, c3, c4] ++ (gencodeList ges ++ [69, 78, 68])).take t)
        dest fs).2.2 ≤ 1 ∧
    countDisp (unpack_archive (([c1, c2, c3, c4] ++ (gencodeList ges ++ [69, 78, 68])).take t)
        dest fs).2.2 ≤ startedEntries ges (t - 4) := by
  have hca : ([c1, c2, c3, c4] : List Nat).length = 4 := rfl
  have htk : ([c1, c2, c3, c4] ++ (gencodeList ges ++ [69, 78, 68])).take t
      = [c1, c2, c3, c4] ++ ((gencodeList ges ++ [69, 78, 68]).take (t - 4)) := by
    rw [List.take_append_eq_append_take, List.take_of_length_le (by rw [hca]; omega), hca]
  rw [htk]
  have hlen2 : ¬ ([c1, c2, c3, c4] ++
      ((gencodeList ges ++ [69, 78, 68]).take (t - 4))).length < 4 := by
    simp
  rw [unpack_archive_some _ dest fs fs1 hc hlen2, List.take_left' hca, List.drop_left' hca]
  have hbound : t - 4 < (gencodeList ges ++ [69, 78, 68]).length := by
    rw [List.length_append, hca] at ht
    omega
  obtain ⟨hf, hd⟩ := parseLoop_take_fails dest (sle4 [c1, c2, c3, c4]) ges hwf
    (t - 4) fs1 0 hbound
  obtain ⟨he1, _⟩ := parseLoop_err_bound dest (sle4 [c1, c2, c3, c4])
    ((gencodeList ges ++ [69, 78, 68]).take (t - 4)).length
    ((gencodeList ges ++ [69, 78, 68]).take (t - 4)) (Nat.le_refl _) fs1 0
  refine ⟨hf, ?_, ?_⟩
  · rw [(create_directory_state fs dest fs1 hc).1, hf, if_neg (by decide)]
    simp only [List.append_assoc, List.cons_append, List.nil_append, countErr_append,
      countErr_status, countErr_message, countErr_ndir, countErr_nfile, countErr_error,
      countErr_nil]
    omega
  · rw [(create_directory_state fs dest fs1 hc).1, hf, if_neg (by decide)]
    simp only [List.append_assoc, List.cons_append, List.nil_append, countDisp_append,
      countDisp_status, countDisp_message, countDisp_ndir, countDisp_nfile, countDisp_error,
      countDisp_nil]
    omega

/-- Witness for claim C2 (amended) at the one-file archive truncated to 8
bytes. -/
theorem claim_C2_amended_witness :
    4 ≤ 8 ∧
    ([1, 2, 0, 0] ++
        (gencodeList [GEntry.gfile [70, 73, 76] [5, 0, 0, 0] 1 [97] [9, 9, 9, 9, 9]] ++
          [69, 78, 68])).length < 2 ^ 31 ∧
    8 < ([1, 2, 0, 0] ++
        (gencodeList [GEntry.gfile [70, 73, 76] [5, 0, 0, 0] 1 [97] [9, 9, 9, 9, 9]] ++
          [69, 78, 68])).length ∧
    ((unpack_archive (([1, 2, 0, 0] ++
          (gencodeList [GEntry.gfile [70, 73, 76] [5, 0, 0, 0] 1 [97] [9, 9, 9, 9, 9]] ++
            [69, 78, 68])).take 8)
        [100, 101, 115, 116] ⟨[], [], []⟩).1 = false ∧
      countErr (unpack_archive (([1, 2, 0, 0] ++
          (gencodeList [GEntry.gfile [70, 73, 76] [5, 0, 0, 0] 1 [97] [9, 9, 9, 9, 9]] ++
            [69, 78, 68])).take 8)
        [100, 101, 115, 116] ⟨[], [], []⟩).2.2 ≤ 1 ∧
      countDisp (unpack_archive (([1, 2, 0, 0] ++
          (gencodeList [GEntry.gfile [70, 73, 76] [5, 0, 0, 0] 1 [97] [9, 9, 9, 9, 9]] ++
            [69, 78, 68])).take 8)
        [100, 101, 115, 116] ⟨[], [], []⟩).2.2 ≤
        startedEntries [GEntry.gfile [70, 73, 76] [5, 0, 0, 0] 1 [97] [9, 9, 9, 9, 9]]
          (8 - 4)) :=
  ⟨by decide, by decide, by decide,
   claim_C2_amended 1 2 0 0 [GEntry.gfile [70, 73, 76] [5, 0, 0, 0] 1 [97] [9, 9, 9, 9, 9]]
     [100, 101, 115, 116] ⟨[], [], []⟩ ⟨[[100, 101, 115, 116]], [], []⟩ 8
     (by decide) (by decide) (by decide) (by decide) (by decide)⟩

/-- Counterexample to claim C3 as stated: an archive whose `DIR` entry is
written WITHOUT a 4-byte size field (`01 00 00 00 'D' 'I' 'R' 03 's' 'u' 'b'
'E' 'N' 'D'`) is misparsed — the parser consumes `03 's' 'u' 'b'` as the
size field, takes `'E'` (69) as the name length, creates `dest/ND` instead
of `dest/sub`, and fails: the size field is read for `DIR` entries too. -/
theorem claim_C3_counterexample :
    (unpack_archive ([1, 0, 0, 0] ++ ([68, 73, 82] ++ [3] ++ [115, 117, 98] ++ [69, 78, 68]))
        [100, 101, 115, 116] ⟨[], [], []⟩).1 = false ∧
    Event.new_directory ([100, 101, 115, 116] ++ [47] ++ [115, 117, 98]) ∉
      (unpack_archive ([1, 0, 0, 0] ++ ([68, 73, 82] ++ [3] ++ [115, 117, 98] ++ [69, 78, 68]))
        [100, 101, 115, 116] ⟨[], [], []⟩).2.2 ∧
    Event.new_directory [100, 101, 115, 116, 47, 78, 68] ∈
      (unpack_archive ([1, 0, 0, 0] ++ ([68, 73, 82] ++ [3] ++ [115, 117, 98] ++ [69, 78, 68]))
        [100, 101, 115, 116] ⟨[], [], []⟩).2.2 := by
  decide

/-- Claim C3 (amended): a `DIR` entry's wire form DOES contain a 4-byte size
field between the tag and the name-length byte: for every value of those
four bytes, the archive `01 00 00 00 'D' 'I' 'R' s1 s2 s3 s4 03 's' 'u' 'b'
'E' 'N' 'D'` unpacks successfully to the same result — the four bytes are
consumed and their value ignored. -/
theorem claim_C3_amended (s1 s2 s3 s4 : Nat) :
    unpack_archive
        ([1, 0, 0, 0] ++
          (gencodeEntry (GEntry.gdir [s1, s2, s3, s4] 3 [115, 117, 98]) ++ [69, 78, 68]))
        [100, 101, 115, 116] ⟨[], [], []⟩ =
      (true,
       ⟨[[100, 101, 115, 116], [100, 101, 115, 116, 47, 115, 117, 98]], [], []⟩,
       [Event.message, Event.status 0 1, Event.message, Event.status 1 1, Event.message,
        Event.new_directory [100, 101, 115, 116, 47, 115, 117, 98], Event.message]) := by
  have hc : (create_directory (⟨[], [], []⟩ : FS) [100, 101, 115, 116]).1 =
      some ⟨[[100, 101, 115, 116]], [], []⟩ := by decide
  have hlen : ¬ ([1, 0, 0, 0] ++
      (gencodeEntry (GEntry.gdir [s1, s2, s3, s4] 3 [115, 117, 98]) ++ [69, 78, 68])).length <
      4 := by
    simp
  have h4 : ([1, 0, 0, 0] : List Nat).length = 4 := rfl
  have hc2 : (create_directory (⟨[[100, 101, 115, 116]], [], []⟩ : FS)
      (entryPath [100, 101, 115, 116] [115, 117, 98])).1 =
      some ⟨[[100, 101, 115, 116], [100, 101, 115, 116, 47, 115, 117, 98]], [], []⟩ := by
    decide
  rw [unpack_archive_some _ _ _ _ hc hlen, List.take_left' h4, List.drop_left' h4,
    parseLoop_gencode_cons _ _ _ (by exact ⟨rfl, rfl⟩),
    stepE_gdir_success [100, 101, 115, 116] (sle4 [1, 0, 0, 0]) [s1, s2, s3, s4] 3 [115, 117, 98]
      ⟨[[100, 101, 115, 116]], [], []⟩ 0
      ⟨[[100, 101, 115, 116], [100, 101, 115, 116, 47, 115, 117, 98]], [], []⟩ hc2]
  decide

/-- Counterexample to claim C4 as stated: the valid one-entry archive of C1
produces TWO progress calls, `status 0 1` then `status 1 1` — an initial
call with first argument 0 precedes the per-entry calls, so the count is
N+1, not N, and the first arguments run from 0, not from 1. -/
theorem claim_C4_counterexample :
    ((unpack_archive
        ([1, 0, 0, 0] ++ [68, 73, 82] ++ [0, 0, 0, 0] ++ [3] ++ [115, 117, 98] ++ [69, 78, 68])
        [100, 101, 115, 116] ⟨[], [], []⟩).2.2).filter isStatus =
      [Event.status 0 1, Event.status 1 1] ∧
    ([Event.status 0 1, Event.status 1 1].length ≠ 1) := by
  decide

/-- Claim C4 (amended): on a successfully unpacked program-representable
archive with N entries, the progress calls are exactly `status 0 num`
(emitted once before the entry loop) followed by
`status 1 num, ..., status N num` (one per entry, strictly increasing); the
constant second argument `num` is the 4-byte little-endian entry count read
from the header as a SIGNED 32-bit `int` (`sle4`, negative when the high
byte has its top bit set). -/
theorem claim_C4_amended (c1 c2 c3 c4 : Nat) (ges : List GEntry) (dest : List Nat)
    (fs fs1 : FS)
    (hwf : ∀ e ∈ ges, WFG e)
    (hc : (create_directory fs dest).1 = some fs1)
    (_hrep : ([c1, c2, c3, c4] ++ (gencodeList ges ++ [69, 78, 68])).length < 2 ^ 31)
    (hrun : (unpack_archive ([c1, c2, c3, c4] ++ (gencodeList ges ++ [69, 78, 68]))
        dest fs).1 = true) :
    ((unpack_archive ([c1, c2, c3, c4] ++ (gencodeList ges ++ [69, 78, 68]))
        dest fs).2.2).filter isStatus =
      Event.status 0 (sle4 [c1, c2, c3, c4]) ::
        (List.range ges.length).map (fun i => Event.status (i + 1) (sle4 [c1, c2, c3, c4])) := by
  have h4 : ([c1, c2, c3, c4] : List Nat).length = 4 := rfl
  have hlen : ¬ ([c1, c2, c3, c4] ++ (gencodeList ges ++ [69, 78, 68])).length < 4 := by
    simp
  have htail : (gencodeList ges ++ [69, 78, 68] : List Nat)
      = gencodeList ges ++ [69, 78, 68] ++ [] := by
    rw [List.append_nil]
  rw [unpack_archive_some _ _ _ _ hc hlen, List.take_left' h4, List.drop_left' h4, htail,
    parseLoop_runEntries dest (sle4 [c1, c2, c3, c4]) ges hwf [] fs1 0] at hrun
  have hrunE : (runEntries dest (sle4 [c1, c2, c3, c4]) ges fs1 0).1 = true := hrun
  rw [unpack_archive_some _ _ _ _ hc hlen, List.take_left' h4, List.drop_left' h4, htail,
    parseLoop_runEntries dest (sle4 [c1, c2, c3, c4]) ges hwf [] fs1 0,
    (create_directory_state fs dest fs1 hc).1, hrunE, if_pos rfl]
  show (([Event.message] ++ [] ++ [Event.status 0 (sle4 [c1, c2, c3, c4]), Event.message] ++
      (runEntries dest (sle4 [c1, c2, c3, c4]) ges fs1 0).2.2 ++
      [Event.message]).filter isStatus) = _
  simp only [List.append_assoc, List.cons_append, List.nil_append, List.filter_append,
    List.filter_cons, List.filter_nil]
  rw [runEntries_statuses dest (sle4 [c1, c2, c3, c4]) ges fs1 0 hrunE]
  simp only [isStatus]
  simp only [List.cons_append, List.nil_append, List.append_nil, if_true, if_false]
  norm_num
  intro a _
  omega

/-- Witness for claim C4 (amended) at the one-directory archive of C1. -/
theorem claim_C4_amended_witness :
    ([1, 0, 0, 0] ++
        (gencodeList [GEntry.gdir [0, 0, 0, 0] 3 [115, 117, 98]] ++ [69, 78, 68])).length <
      2 ^ 31 ∧
    (unpack_archive ([1, 0, 0, 0] ++
        (gencodeList [GEntry.gdir [0, 0, 0, 0] 3 [115, 117, 98]] ++ [69, 78, 68]))
      [100, 101, 115, 116] ⟨[], [], []⟩).1 = true ∧
    ((unpack_archive ([1, 0, 0, 0] ++
        (gencodeList [GEntry.gdir [0, 0, 0, 0] 3 [115, 117, 98]] ++ [69, 78, 68]))
      [100, 101, 115, 116] ⟨[], [], []⟩).2.2).filter isStatus =
      Event.status 0 (sle4 [1, 0, 0, 0]) ::
        (List.range [GEntry.gdir [0, 0, 0, 0] 3 [115, 117, 98]].length).map
          (fun i => Event.status (i + 1) (sle4 [1, 0, 0, 0])) :=
  ⟨by decide, by decide,
   claim_C4_amended 1 0 0 0 [GEntry.gdir [0, 0, 0, 0] 3 [115, 117, 98]]
     [100, 101, 115, 116] ⟨[], [], []⟩ ⟨[[100, 101, 115, 116]], [], []⟩
     (by decide) (by decide) (by decide) (by decide)⟩

/-- Claim C8: extracting the same program-representable archive (length
below `2 ^ 31`: the source receives the buffer length as `int`) twice into
the same destination — the second run starting from the filesystem state the
first run produced — succeeds both times with identical final state and
identical event trace: files are truncated and overwritten (a negative
declared size truncates to empty both times), pre-existing directories are
accepted silently. -/
theorem claim_C8 (data dest : List Nat) (fs0 fs1 : FS) (ev : List Event)
    (hnd : (keysOf fs0.files).Nodup)
    (_hrep : data.length < 2 ^ 31)
    (hrun : unpack_archive data dest fs0 = (true, fs1, ev)) :
    unpack_archive data dest fs1 = (true, fs1, ev) := by
  rcases hc : (create_directory fs0 dest).1 with _ | fsA
  · rw [unpack_archive_none data dest fs0 hc] at hrun
    exact absurd hrun (by simp)
  by_cases hlen : data.length < 4
  · rw [unpack_archive_some_short data dest fs0 fsA hc hlen] at hrun
    exact absurd hrun (by simp)
  rw [unpack_archive_some data dest fs0 fsA hc hlen] at hrun
  simp only [Prod.mk.injEq] at hrun
  obtain ⟨hp1, hp2, hp3⟩ := hrun
  obtain ⟨ges, tail, hwf, hdec⟩ := parseLoop_success_decomp dest (sle4 (data.take 4))
    (data.drop 4).length (data.drop 4) (Nat.le_refl _) fsA 0 hp1
  rw [hdec, parseLoop_runEntries dest (sle4 (data.take 4)) ges hwf tail fsA 0] at hp1 hp2 hp3
  have hrunE : runEntries dest (sle4 (data.take 4)) ges fsA 0 =
      (true, fs1, (runEntries dest (sle4 (data.take 4)) ges fsA 0).2.2) := by
    rw [← hp1, ← hp2]
  have hndA : (keysOf fsA.files).Nodup := by
    rw [(create_directory_state fs0 dest fsA hc).2.1]
    exact hnd
  have hnd1 : (keysOf fs1.files).Nodup := by
    have h := runEntries_nodup dest (sle4 (data.take 4)) ges fsA 0 hndA
    rw [hrunE] at h
    exact h
  have hdirsA : ∀ q ∈ fsA.dirs, q ∈ fs1.dirs := by
    intro q hq
    have h := runEntries_dirs_mono dest (sle4 (data.take 4)) ges fsA 0 q hq
    rw [hrunE] at h
    exact h
  have hc1 : create_directory fs1 dest = (some fs1, []) :=
    create_directory_again fs0 dest fsA hc fs1 hdirsA
  have hidem := runEntries_idem dest (sle4 (data.take 4)) ges fsA fs1 fs1 0
    ((runEntries dest (sle4 (data.take 4)) ges fsA 0).2.2) hrunE hnd1 rfl rfl rfl
    (fun _ _ => rfl)
  rw [(create_directory_state fs0 dest fsA hc).1] at hp3
  rw [if_pos hp1] at hp3
  rw [unpack_archive_some data dest fs1 fs1 (by rw [hc1]) hlen, hdec,
    parseLoop_runEntries dest (sle4 (data.take 4)) ges hwf tail fs1 0, hidem, hc1]
  rw [← hp3]
  rfl

/-- Witness for claim C8 at a concrete two-entry archive (one directory, one
file): the second extraction from the first run's final state reproduces
state and trace exactly. -/
theorem claim_C8_witness :
    (keysOf (⟨[], [], []⟩ : FS).files).Nodup ∧
    ([2, 0, 0, 0] ++ ([68, 73, 82] ++ [0, 0, 0, 0] ++ [3] ++ [115, 117, 98]) ++
        ([70, 73, 76] ++ [2, 0, 0, 0] ++ [1] ++ [97] ++ [7, 8]) ++ [69, 78, 68]).length <
      2 ^ 31 ∧
    unpack_archive
        ([2, 0, 0, 0] ++ ([68, 73, 82] ++ [0, 0, 0, 0] ++ [3] ++ [115, 117, 98]) ++
          ([70, 73, 76] ++ [2, 0, 0, 0] ++ [1] ++ [97] ++ [7, 8]) ++ [69, 78, 68])
        [100, 101, 115, 116]
        ⟨[[100, 101, 115, 116], [100, 101, 115, 116, 47, 115, 117, 98]],
         [([100, 101, 115, 116, 92, 97], [7, 8])], []⟩ =
      (true,
       ⟨[[100, 101, 115, 116], [100, 101, 115, 116, 47, 115, 117, 98]],
        [([100, 101, 115, 116, 92, 97], [7, 8])], []⟩,
       [Event.message, Event.status 0 2, Event.message, Event.status 1 2, Event.message,
        Event.new_directory [100, 101, 115, 116, 47, 115, 117, 98], Event.status 2 2,
        Event.message, Event.new_file [100, 101, 115, 116, 92, 97], Event.message]) :=
  ⟨by decide, by decide,
   claim_C8
     ([2, 0, 0, 0] ++ ([68, 73, 82] ++ [0, 0, 0, 0] ++ [3] ++ [115, 117, 98]) ++
       ([70, 73, 76] ++ [2, 0, 0, 0] ++ [1] ++ [97] ++ [7, 8]) ++ [69, 78, 68])
     [100, 101, 115, 116] ⟨[], [], []⟩
     ⟨[[100, 101, 115, 116], [100, 101, 115, 116, 47, 115, 117, 98]],
      [([100, 101, 115, 116, 92, 97], [7, 8])], []⟩
     [Event.message, Event.status 0 2, Event.message, Event.status 1 2, Event.message,
      Event.new_directory [100, 101, 115, 116, 47, 115, 117, 98], Event.status 2 2,
      Event.message, Event.new_file [100, 101, 115, 116, 92, 97], Event.message]
     (by decide) (by decide) (by decide)⟩

/-- `beforeError` passes through a prefix of three non-error events. -/
theorem beforeError_prefix3 (a b c : Event) (L : List Event)
    (ha : isErr a = false) (hb : isErr b = false) (hcv : isErr c = false) :
    beforeError (a :: b :: c :: L) = a :: b :: c :: beforeError L := by
  simp [beforeError, List.takeWhile, ha, hb, hcv]

/-- A `DIR` entry whose name-length and name reads exhaust the stream: those
short reads produce no error — the directory with the truncated name is
dispatched, and the first error in the trace (if any) comes only from the
NEXT iteration's tag read. -/
theorem parseLoop_dir_nameTrunc (dest : List Nat) (num : Int) (sb r2 : List Nat)
    (fs : FS) (pos : Nat) (hsb : sb.length = 4)
    (hr4 : (r2.drop 1).drop ((r2.head?).getD 0) = []) :
    (parseLoop dest num ([68, 73, 82] ++ sb ++ r2) fs pos).1 = false ∧
    beforeError (parseLoop dest num ([68, 73, 82] ++ sb ++ r2) fs pos).2.2 =
      [Event.status (pos + 1) num, Event.message,
       Event.new_directory (concatPaths dest
         (stripDotSlash ((r2.drop 1).take ((r2.head?).getD 0))))] := by
  rw [List.append_assoc, parseLoop_eq]
  unfold parseStep
  rw [if_neg (by simp [hsb])]
  have htg : ([68, 73, 82] : List Nat).length = 3 := rfl
  rw [List.take_left' htg, if_neg (by decide), List.drop_left' htg]
  rw [if_neg (by simp [hsb])]
  dsimp only
  rw [List.take_left' hsb, List.drop_left' hsb, hr4]
  rw [if_pos rfl]
  rcases hc : (create_directory fs
      (concatPaths dest (stripDotSlash ((r2.drop 1).take ((r2.head?).getD 0))))).1 with _ | fs1
  · simp only [hc]
    rw [create_directory_none _ _ hc]
    refine ⟨by trivial, ?_⟩
    simp [beforeError, List.takeWhile, isErr]
  · simp only [hc]
    rw [(create_directory_state _ _ _ hc).1,
      parseLoop_short dest num [] fs1 (pos + 1) (by simp)]
    refine ⟨by trivial, ?_⟩
    simp [beforeError, List.takeWhile, isErr]

/-- Claim C9: the reads of the 1-byte name length and of the name bytes have
no short-read check: if the stream ends within the name bytes (first
conjunct, `DIR` entry whose name is cut after `k` of its declared bytes) or
before the name-length byte (second conjunct), no error is reported for
those reads — the entry is dispatched with the truncated (resp. empty) name,
its `new_directory` callback occurring strictly before the first error of
the trace; the eventual failure comes from the next iteration's tag read. -/
theorem claim_C9 (name : List Nat) (k : Nat) (hk : k < name.length) :
    ((unpack_archive
        ([1, 0, 0, 0] ++ ([68, 73, 82] ++ [0, 0, 0, 0] ++ (name.length :: name.take k)))
        [100, 101, 115, 116] ⟨[], [], []⟩).1 = false ∧
      Event.new_directory
          (concatPaths [100, 101, 115, 116] (stripDotSlash (name.take k))) ∈
        beforeError (unpack_archive
          ([1, 0, 0, 0] ++ ([68, 73, 82] ++ [0, 0, 0, 0] ++ (name.length :: name.take k)))
          [100, 101, 115, 116] ⟨[], [], []⟩).2.2) ∧
    ((unpack_archive [1, 0, 0, 0, 68, 73, 82, 0, 0, 0, 0]
        [100, 101, 115, 116] ⟨[], [], []⟩).1 = false ∧
      Event.new_directory [100, 101, 115, 116, 47] ∈
        beforeError (unpack_archive [1, 0, 0, 0, 68, 73, 82, 0, 0, 0, 0]
          [100, 101, 115, 116] ⟨[], [], []⟩).2.2) := by
  refine ⟨?_, by decide⟩
  have hc : (create_directory (⟨[], [], []⟩ : FS) [100, 101, 115, 116]).1 =
      some ⟨[[100, 101, 115, 116]], [], []⟩ := by decide
  have hlen : ¬ ([1, 0, 0, 0] ++
      ([68, 73, 82] ++ [0, 0, 0, 0] ++ (name.length :: name.take k))).length < 4 := by
    simp
  have h4 : ([1, 0, 0, 0] : List Nat).length = 4 := rfl
  have hr4 : (((name.length :: name.take k : List Nat)).drop 1).drop
      (((name.length :: name.take k : List Nat).head?).getD 0) = [] := by
    show (name.take k).drop name.length = []
    apply List.drop_eq_nil_of_le
    rw [List.length_take]
    omega
  obtain ⟨hf, hbe⟩ := parseLoop_dir_nameTrunc [100, 101, 115, 116] (sle4 [1, 0, 0, 0])
    [0, 0, 0, 0] (name.length :: name.take k) ⟨[[100, 101, 115, 116]], [], []⟩ 0 rfl hr4
  have hname : (((name.length :: name.take k : List Nat)).drop 1).take
      (((name.length :: name.take k : List Nat).head?).getD 0) = name.take k := by
    show (name.take k).take name.length = name.take k
    apply List.take_of_length_le
    rw [List.length_take]
    omega
  rw [hname] at hbe
  rw [unpack_archive_some _ _ _ _ hc hlen, List.take_left' h4, List.drop_left' h4]
  refine ⟨hf, ?_⟩
  rw [(create_directory_state (⟨[], [], []⟩ : FS) [100, 101, 115, 116] _ hc).1, hf,
    if_neg (by decide)]
  simp only [List.cons_append, List.nil_append, List.append_nil] at hbe ⊢
  rw [beforeError_prefix3 Event.message (Event.status 0 (sle4 [1, 0, 0, 0])) Event.message _
    rfl rfl rfl, hbe]
  simp

/-- Witness for claim C9 at `name = "sub"`, cut after one byte. -/
theorem claim_C9_witness :
    1 < ([115, 117, 98] : List Nat).length ∧
    (((unpack_archive
        ([1, 0, 0, 0] ++ ([68, 73, 82] ++ [0, 0, 0, 0] ++
          (([115, 117, 98] : List Nat).length :: ([115, 117, 98] : List Nat).take 1)))
        [100, 101, 115, 116] ⟨[], [], []⟩).1 = false ∧
      Event.new_directory
          (concatPaths [100, 101, 115, 116]
            (stripDotSlash (([115, 117, 98] : List Nat).take 1))) ∈
        beforeError (unpack_archive
          ([1, 0, 0, 0] ++ ([68, 73, 82] ++ [0, 0, 0, 0] ++
            (([115, 117, 98] : List Nat).length :: ([115, 117, 98] : List Nat).take 1)))
          [100, 101, 115, 116] ⟨[], [], []⟩).2.2) ∧
    ((unpack_archive [1, 0, 0, 0, 68, 73, 82, 0, 0, 0, 0]
        [100, 101, 115, 116] ⟨[], [], []⟩).1 = false ∧
      Event.new_directory [100, 101, 115, 116, 47] ∈
        beforeError (unpack_archive [1, 0, 0, 0, 68, 73, 82, 0, 0, 0, 0]
          [100, 101, 115, 116] ⟨[], [], []⟩).2.2)) :=
  ⟨by decide, claim_C9 [115, 117, 98] 1 (by decide)⟩

end SwfArchive
